import Mathlib

/-!
Shallow embedding of the declarative CLI engine (`src/qjs-tools/src/cli/cli-parser.ts`):
configuration validation, locator extraction, and argument parsing, together with
theorems checking the natural-language specification against this code.

Conventions used throughout the embedding:
- JavaScript exceptions raised through the `ExitError` class (print payload, exit 1)
  are modelled as `Except.error` carrying the diagnostic message.
- An uncaught JavaScript `TypeError` (reading a property of `null`/`undefined`,
  `Object.keys(null)`, calling `startsWith` on `undefined`) is modelled by a
  distinct `crash` outcome, since it bypasses the structured failure payload.
- JavaScript objects are association lists in insertion order; `Object.keys`
  enumeration places integer-like keys first in ascending numeric order, as in JS.
- `Number(tok)` conversion of a flag value is kept symbolic: `FlagValue.num`
  carries the raw token (`none` standing for JS `undefined`). Only the control
  flow of the conversion (it never raises) is relevant to the claims.
-/

/-- `String.startsWith`, restated over character lists so that it evaluates
inside the kernel. -/
def strStartsWith (s p : String) : Bool := decide (s.data.take p.data.length = p.data)

/-- JavaScript values producible by `JSON5.parse`, plus structured traversal results. -/
inductive JVal where
  | jnull
  | jbool (b : Bool)
  | jnum (n : Int)
  | jstr (s : String)
  | jarr (elems : List JVal)
  | jobj (fields : List (String × JVal))

/-- Result of the JavaScript `typeof` operator on a `JVal`; note `typeof null`,
`typeof []` and `typeof {}` are all the string `"object"`. -/
def typeofStr : JVal → String
  | .jnull => "object"
  | .jbool _ => "boolean"
  | .jnum _ => "number"
  | .jstr _ => "string"
  | .jarr _ => "object"
  | .jobj _ => "object"

/-- `typeof` lifted to possibly-`undefined` values (`none` is JS `undefined`). -/
def typeofOpt : Option JVal → String
  | none => "undefined"
  | some v => typeofStr v

/-- Decimal digit test. -/
def isDigitCh (c : Char) : Bool := '0' ≤ c ∧ c ≤ '9'

/-- Numeric value of a list of decimal digits. -/
def digitsToNat (l : List Char) : Nat :=
  l.foldl (fun n c => n * 10 + (c.toNat - '0'.toNat)) 0

/-- Whether a string is a canonical JS array-index key (`"0"`, `"1"`, ...):
nonempty, all digits, and no leading zero except for `"0"` itself. -/
def isIndexKey (k : String) : Bool :=
  k.data ≠ [] ∧ k.data.all isDigitCh ∧ (k.data.head? ≠ some '0' ∨ k.data = ['0'])

/-- Numeric value of an index key (only meaningful when `isIndexKey` holds). -/
def keyToNat (k : String) : Nat := digitsToNat k.data

/-- Insert a number into an ascending list of numbers. -/
def insertAsc (n : Nat) : List Nat → List Nat
  | [] => [n]
  | m :: ms => if n ≤ m then n :: m :: ms else m :: insertAsc n ms

/-- Sort a list of numbers ascending (insertion sort). -/
def sortNats (l : List Nat) : List Nat := l.foldr insertAsc []

/-- JS own-key enumeration order: integer-like keys first, ascending, then the
remaining string keys in insertion order. -/
def jsKeyOrder (keys : List String) : List String :=
  (sortNats ((keys.filter isIndexKey).map keyToNat)).map (fun n => toString n)
    ++ keys.filter (fun k => ¬ isIndexKey k)

/-- `Object.keys` on a non-null value (total core; `jnull` handled by callers,
which model the `TypeError` raised by `Object.keys(null)`). -/
def objKeysB : JVal → List String
  | .jnull => []
  | .jbool _ => []
  | .jnum _ => []
  | .jstr s => (List.range s.length).map (fun n => toString n)
  | .jarr xs => (List.range xs.length).map (fun n => toString n)
  | .jobj fields => jsKeyOrder (fields.map (fun p => p.1))

/-- `Object.prototype.hasOwnProperty.call` on a non-null receiver (total core). -/
def hasOwnB : JVal → String → Bool
  | .jnull, _ => false
  | .jbool _, _ => false
  | .jnum _, _ => false
  | .jstr s, k => k = "length" ∨ (isIndexKey k ∧ keyToNat k < s.length)
  | .jarr xs, k => k = "length" ∨ (isIndexKey k ∧ keyToNat k < xs.length)
  | .jobj fields, k => fields.any (fun p => p.1 = k)

/-- JS property read `v[k]`; `none` is `undefined`. -/
def getProp : JVal → String → Option JVal
  | .jobj fields, k => (fields.find? (fun p => p.1 = k)).map (fun p => p.2)
  | .jarr xs, k => if isIndexKey k then xs.get? (keyToNat k) else none
  | .jstr s, k =>
    if isIndexKey k then (s.data.get? (keyToNat k)).map (fun c => .jstr (String.mk [c]))
    else none
  | _, _ => none

/-- Property read through a possibly-`undefined` receiver. -/
def getPropOpt (o : Option JVal) (k : String) : Option JVal :=
  o.bind (fun v => getProp v k)

/-- `Array.isArray`. -/
def isArrayB : Option JVal → Bool
  | some (.jarr _) => true
  | _ => false

/-- Elements of an array value (empty for anything else). -/
def jarrElems : Option JVal → List JVal
  | some (.jarr xs) => xs
  | _ => []

/-- The declared type of a flag: `"string"`, `"number"` or `"boolean"`. -/
inductive FlagType where
  | str
  | num
  | bool
deriving DecidableEq

/-- A parsed flag value. `str none` / `num none` stand for a value read from JS
`undefined`; `num` keeps the raw token, with `Number(token)` left symbolic. -/
inductive FlagValue where
  | str (s : Option String)
  | num (src : Option String)
  | bool (b : Bool)
deriving DecidableEq

/-- `FlagConfig` of the source: declared type, default, description and alias.
The source fields `default` and `alias` are spelled `defaultVal` and `aliasName`
here (both words are reserved in Lean declarations); `defaultVal` keeps the raw
JSON value, and parsing never consumes it. -/
structure FlagConfig where
  type : FlagType
  defaultVal : JVal
  description : String
  aliasName : String

/-- A declared positional-argument slot (`{name: string}`). -/
structure ArgSpec where
  name : String
deriving DecidableEq

/-- `CommandType` of the source. Flags are an insertion-ordered mapping. -/
structure CommandType where
  description : String
  args : List ArgSpec
  flags : List (String × FlagConfig)

/-- `CliConfType` of the source: the validated configuration tree. -/
structure CliConfType where
  name : String
  version : String
  description : String
  commands : List (String × CommandType)

/-- The `action` discriminator of `InputActionType`. -/
inductive ActionType where
  | command
  | help
  | version
deriving DecidableEq

/-- The `command` payload of a successful parse. -/
structure CommandResult where
  name : String
  args : List String
  flags : List (String × FlagValue)
deriving DecidableEq

/-- `InputActionType` of the source. -/
structure InputAction where
  success : Bool
  action : ActionType
  output : String
  command : Option CommandResult
deriving DecidableEq

/-- Outcome of a run: a structured `ExitError` diagnostic, or an uncaught
JS `TypeError` (`crash`). -/
inductive VErr where
  | diag (msg : String)
  | crash
deriving DecidableEq

/-! ## Locator handling (`checkConfFlag`, the extraction scan of `cliConfParser`,
`removeConfFlag`) -/

/-- Loop body of `checkConfFlag`. `rest` is the part of `cliArgs` not yet
visited (`rest = cliArgs.drop i`) and `i` the current index; the source
compares `cliArgs.length === i + 1` to detect a `--config`/`-c` token in the
last position. -/
def checkConfGo (cliArgs : List String) : List String → Nat → Bool → Except String Bool
  | [], _, hasConfFlag => .ok hasConfFlag
  | arg :: rest, i, hasConfFlag =>
    if arg = "--config" ∨ arg = "-c" then
      if cliArgs.length = i + 1 then
        .error "The --config|-c flag must be set with a value"
      else checkConfGo cliArgs rest (i + 1) true
    else checkConfGo cliArgs rest (i + 1) hasConfFlag

/-- `checkConfFlag` of the source: requires a `--config`/`-c` token that is not
the last token. -/
def checkConfFlag (cliArgs : List String) : Except String Unit :=
  match checkConfGo cliArgs cliArgs 0 false with
  | .error e => .error e
  | .ok true => .ok ()
  | .ok false => .error "The --config|-c flag must be set"

/-- The `forEach` scan of `cliConfParser` that extracts the locator value.
`rest = cliArgs.drop i`. The source guards the read of `cliArgs[i + 1]` with
`i + 1 <= cliArgs.length`, which always holds; when `i` is the last index the
read yields `undefined` and `undefined.startsWith` raises a `TypeError`,
modelled by the `none` result. -/
def extractConfGo (cliArgs : List String) : List String → Nat → String → Option String
  | [], _, cliConfig => some cliConfig
  | arg :: rest, i, cliConfig =>
    let isConfigFlag := arg = "--config" ∨ arg = "-c"
    let hasNextArg := i + 1 ≤ cliArgs.length
    if isConfigFlag ∧ hasNextArg then
      match cliArgs.get? (i + 1) with
      | none => none
      | some nextArg =>
        extractConfGo cliArgs rest (i + 1)
          (if strStartsWith nextArg "-" then cliConfig else nextArg)
    else extractConfGo cliArgs rest (i + 1) cliConfig

/-- The locator-extraction scan of `cliConfParser`, started on the full list. -/
def extractConfig (cliArgs : List String) : Option String :=
  extractConfGo cliArgs cliArgs 0 ""

/-- Loop body of `removeConfFlag`: drops the first `--config`/`-c` token
together with the token after it (the source does `i++; continue;` inside the
`for` loop, so the loop update skips a second token). -/
def removeConfGo : List String → Bool → List String
  | [], _ => []
  | arg :: rest, isRemove =>
    if (arg = "--config" ∨ arg = "-c") ∧ ¬ isRemove then
      match rest with
      | [] => []
      | _ :: rest2 => removeConfGo rest2 true
    else arg :: removeConfGo rest isRemove

/-- `removeConfFlag` of the source. -/
def removeConfFlag (inputCliArgs : List String) : List String :=
  removeConfGo inputCliArgs false

/-! ## Reserved-flag scans (`isVersion`, `isArgsIncludeHelpFlag`, `removeHelpFlag`) -/

/-- `isVersion` of the source: `--version` first (or `-v` alone) answers true;
any other occurrence of `--version`/`-v` anywhere in the list is an error. -/
def isVersion (inputCliArgs : List String) : Except String Bool :=
  if inputCliArgs.length = 0 then .ok false
  else
    let firstArg := inputCliArgs.headD ""
    if firstArg = "--version" ∨ (firstArg = "-v" ∧ inputCliArgs.length = 1) then .ok true
    else if inputCliArgs.any (fun arg => arg = "--version" ∨ arg = "-v") then
      .error "The --version|-v flag must be set alone"
    else .ok false

/-- Loop body of `isArgsIncludeHelpFlag`: a second `--help`/`-h` is an error. -/
def isHelpGo : List String → Bool → Except String Bool
  | [], isDetectHelpFlag => .ok isDetectHelpFlag
  | arg :: rest, isDetectHelpFlag =>
    if arg = "--help" ∨ arg = "-h" then
      if isDetectHelpFlag then .error "The --help|-h flag must be set alone"
      else isHelpGo rest true
    else isHelpGo rest isDetectHelpFlag

/-- `isArgsIncludeHelpFlag` of the source. -/
def isArgsIncludeHelpFlag (inputCliArgs : List String) : Except String Bool :=
  isHelpGo inputCliArgs false

/-- Loop body of `removeHelpFlag`. Like `removeConfFlag`, the source does
`i++; continue;` inside the `for` loop, so the first `--help`/`-h` token is
dropped together with the token immediately after it. -/
def removeHelpGo : List String → Bool → List String
  | [], _ => []
  | arg :: rest, isRemove =>
    if (arg = "--help" ∨ arg = "-h") ∧ ¬ isRemove then
      match rest with
      | [] => []
      | _ :: rest2 => removeHelpGo rest2 true
    else arg :: removeHelpGo rest isRemove

/-- `removeHelpFlag` of the source. -/
def removeHelpFlag (inputCliArgs : List String) : List String :=
  removeHelpGo inputCliArgs false

/-! ## Flag recognition (`checkFlagNotEempty`, `hasFlag`, `hasAliasFlag`,
`checkFlag`, `parseFlag`, `checkCommand`) -/

/-- `checkFlagNotEempty` of the source (name kept with its typo). -/
def checkFlagNotEempty (flag : String) : Except String Unit :=
  if flag = "" then .error ("The flag " ++ flag ++ " is not valid")
  else .ok ()

/-- `hasFlag` of the source: resolves a `--name` token to the declared flag
name, answers `""` for tokens that do not start with `--`. -/
def hasFlag (arg : String) (commandConf : CommandType) : Except String String :=
  if strStartsWith arg "--" then
    let flag := arg.drop 2
    match checkFlagNotEempty flag with
    | .error e => .error e
    | .ok () =>
      if ¬ (commandConf.flags.map (fun p => p.1)).contains flag then
        .error ("The flag " ++ flag ++ " is not a valid flag")
      else .ok flag
  else .ok ""

/-- `Map.set` semantics on an association list: overwrite in place, else append. -/
def mapSet (m : List (String × String)) (k v : String) : List (String × String) :=
  if m.any (fun p => p.1 = k) then m.map (fun p => if p.1 = k then (k, v) else p)
  else m ++ [(k, v)]

/-- The alias-to-name `Map` built by `hasAliasFlag` from the command flags, by
insertion in declaration order (a later flag with the same alias overwrites). -/
def buildAliasMap (flags : List (String × FlagConfig)) : List (String × String) :=
  flags.foldl (fun acc p => mapSet acc p.2.aliasName p.1) []

/-- `Map.get` on the association list. -/
def mapGet (m : List (String × String)) (k : String) : Option String :=
  (m.find? (fun p => p.1 = k)).map (fun p => p.2)

/-- `hasAliasFlag` of the source: resolves a `-a` token through the alias map,
answers `""` for tokens that do not start with `-`. -/
def hasAliasFlag (arg : String) (commandConf : CommandType) (command : String) :
    Except String String :=
  let aliasMapFlag := buildAliasMap commandConf.flags
  if strStartsWith arg "-" then
    let aliasFlag := arg.drop 1
    match checkFlagNotEempty aliasFlag with
    | .error e => .error e
    | .ok () =>
      match mapGet aliasMapFlag aliasFlag with
      | none => .error ("The flag " ++ aliasFlag ++ " is not a valid flag in " ++ command)
      | some flagName => .ok flagName
  else .ok ""

/-- The `hasFlag(arg, conf) || hasAliasFlag(arg, conf, command)` disjunction of
`inputParser`: JS `||` takes the second operand only when the first is `""`. -/
def resolveFlag (arg : String) (commandConf : CommandType) (command : String) :
    Except String String :=
  match hasFlag arg commandConf with
  | .error e => .error e
  | .ok f => if f = "" then hasAliasFlag arg commandConf command else .ok f

/-- `checkFlag` of the source: requires the flag to be declared and, for
`string`/`number` flags, a following token to exist
(`inputCliArgs.length === inputArgsIndex + 1` detects the last position).
The source looks the `FlagConfig` up by name; we return it for the caller,
which performs the same lookup. -/
def checkFlag (inputArgsIndex : Nat) (inputFlag : String) (inputCommandConf : CommandType)
    (inputCliArgs : List String) (inputCommandName : String) : Except String FlagConfig :=
  match inputCommandConf.flags.find? (fun p => p.1 = inputFlag) with
  | none =>
    .error ("The flag " ++ inputFlag ++ " is not a valid flag in command: "
      ++ inputCommandName ++ "\x7d")
  | some p =>
    if (p.2.type = FlagType.str ∨ p.2.type = FlagType.num)
        ∧ inputCliArgs.length = inputArgsIndex + 1 then
      .error ("The flag --" ++ inputFlag ++ " must have a value in command: "
        ++ inputCommandName)
    else .ok p.2

/-- `parseFlag` of the source: `string`/`number` flags consume `cliArgs[i+1]`
(the numeric conversion is kept symbolic) and advance the index; `boolean`
flags become `true` without consuming a token. -/
def parseFlag (flagConf : FlagConfig) (cliArgs : List String) (i : Nat) :
    FlagValue × Nat :=
  if flagConf.type = FlagType.num ∨ flagConf.type = FlagType.str then
    if flagConf.type = FlagType.num then (FlagValue.num (cliArgs.get? (i + 1)), i + 1)
    else (FlagValue.str (cliArgs.get? (i + 1)), i + 1)
  else (FlagValue.bool true, i)

/-- `checkCommand` of the source: the first token must be a declared command.
The source then looks the `CommandType` up by name; we return it for the
caller, which performs the same lookup. -/
def checkCommand (command : String) (cliConf : CliConfType) : Except String CommandType :=
  match cliConf.commands.find? (fun p => p.1 = command) with
  | none => .error ("The command " ++ command ++ " is not a valid command")
  | some p => .ok p.2

/-! ## Help rendering (`helpDoc`, `commandHelpDoc`) -/

/-- The `formatLine` helper of `helpDoc`. -/
def formatLine (cell cell2 : String) : String := cell ++ "\t\t" ++ cell2

/-- `helpDoc` of the source: the global help text. -/
def helpDoc (cliConf : CliConfType) : String :=
  let commandDocs :=
    cliConf.commands.map (fun p => formatLine (cliConf.name ++ " " ++ p.1) p.2.description)
      ++ [formatLine (cliConf.name ++ " help") "search for help on <term>",
          formatLine (cliConf.name ++ " help <term>") "search for help on <term>"]
  cliConf.name ++ " - " ++ cliConf.description ++ "\n\nUSAGE:\n"
    ++ String.intercalate "\n" commandDocs
    ++ "\n\nGLOBAL OPTIONS:\n--help, -h     show help (default: false)\n--version, -v  show version (default: false)\n\n"
    ++ cliConf.name ++ "@" ++ cliConf.version

/-- `commandHelpDoc` of the source: per-command help text. The driver only
calls it when `action.command` is present and names a declared command, so the
fallbacks below are never taken there. -/
def commandHelpDoc (action : InputAction) (cliConf : CliConfType) : String :=
  let name := match action.command with | some c => c.name | none => ""
  let commandConf :=
    match cliConf.commands.find? (fun p => p.1 = name) with
    | some p => p.2
    | none => { description := "", args := [], flags := [] }
  let argsDoc := commandConf.args.map (fun arg => "<" ++ arg.name ++ ">")
  let flagDocs :=
    commandConf.flags.map (fun p => "\t--" ++ p.1 ++ "\t\t" ++ p.2.description)
  let optionSectionDocs :=
    if flagDocs.length > 0 then "\nOptions:\n" ++ String.intercalate "\n" flagDocs ++ "\n"
    else ""
  "Usage: \n  " ++ cliConf.name ++ " " ++ name ++ " " ++ String.intercalate " " argsDoc
    ++ "\n\n  " ++ commandConf.description ++ "." ++ optionSectionDocs ++ "\n"

/-! ## The main parse loop and `inputParser` -/

/-- JS object property assignment `result.command.flags[flag] = value`:
overwrite an existing key in place, else append. -/
def setFlagProp (m : List (String × FlagValue)) (k : String) (v : FlagValue) :
    List (String × FlagValue) :=
  if m.any (fun p => p.1 = k) then m.map (fun p => if p.1 = k then (k, v) else p)
  else m ++ [(k, v)]

/-- The `for` loop of `inputParser` over the tokens after the command name.
`rest = cliArgs.drop i` and `i` is the loop index into `cliArgs` (the list the
source calls `cliArgs`, that is, the input minus the command name); `checkFlag`
and `parseFlag` receive the very same `i` and full `cliArgs` as in the source.
On `--version`/`-v` the accumulated result is returned with the action flipped
to `version`; `baseAction` is the action the result was created with
(`help` or `command`). When a `string`/`number` flag sits in the last
position, `checkFlag` errors before `parseFlag` runs, so the inner `[]`
branch below is unreachable; it returns what the JS loop would after storing
the `undefined` value and leaving the loop. -/
def inputLoop (cliConf : CliConfType) (commandConf : CommandType) (command : String)
    (baseAction : ActionType) (cliArgs : List String) :
    List String → Nat → CommandResult → Except String InputAction
  | [], _, acc =>
    .ok { success := true, action := baseAction, output := "", command := some acc }
  | arg :: rest, i, acc =>
    if arg = "--version" ∨ arg = "-v" then
      .ok { success := true, action := ActionType.version,
            output := cliConf.name ++ "@" ++ cliConf.version, command := some acc }
    else
      match resolveFlag arg commandConf command with
      | .error e => .error e
      | .ok flag =>
        if flag ≠ "" then
          match checkFlag i flag commandConf cliArgs command with
          | .error e => .error e
          | .ok flagConf =>
            let pv := parseFlag flagConf cliArgs i
            let acc2 := { acc with flags := setFlagProp acc.flags flag pv.1 }
            if pv.2 = i then
              inputLoop cliConf commandConf command baseAction cliArgs rest (i + 1) acc2
            else
              match rest with
              | [] =>
                .ok { success := true, action := baseAction, output := "",
                      command := some acc2 }
              | _ :: rest2 =>
                inputLoop cliConf commandConf command baseAction cliArgs rest2 (pv.2 + 1) acc2
        else
          inputLoop cliConf commandConf command baseAction cliArgs rest (i + 1)
            { acc with args := acc.args ++ [arg] }

/-- `inputParser` of the source: version pre-scan, help pre-scan and removal,
global help on an empty list, command resolution, then the token loop. -/
def inputParser (inputCliArgs : List String) (cliConf : CliConfType) :
    Except String InputAction :=
  match isVersion inputCliArgs with
  | .error e => .error e
  | .ok true =>
    .ok { success := true, action := ActionType.version,
          output := cliConf.name ++ "@" ++ cliConf.version, command := none }
  | .ok false =>
    match isArgsIncludeHelpFlag inputCliArgs with
    | .error e => .error e
    | .ok isHelpe =>
      let args := if isHelpe then removeHelpFlag inputCliArgs else inputCliArgs
      if args.length = 0 then
        .ok { success := false, action := ActionType.help,
              output := helpDoc cliConf, command := none }
      else
        let command := args.headD ""
        match checkCommand command cliConf with
        | .error e => .error e
        | .ok commandConf =>
          inputLoop cliConf commandConf command
            (if isHelpe then ActionType.help else ActionType.command)
            (args.drop 1) (args.drop 1) 0
            { name := command, args := [], flags := [] }

/-! ## Config validation (`cliConfParser`, lines 93-228 of the source) -/

/-- `Object.prototype.hasOwnProperty.call` with crash on a `null`/`undefined`
receiver (JS raises a `TypeError` there). -/
def hasOwnE : Option JVal → String → Except VErr Bool
  | none, _ => .error .crash
  | some .jnull, _ => .error .crash
  | some v, k => .ok (hasOwnB v k)

/-- `Object.keys` with crash on a `null`/`undefined` receiver. -/
def objKeysE : Option JVal → Except VErr (List String)
  | none => .error .crash
  | some .jnull => .error .crash
  | some v => .ok (objKeysB v)

/-- The value of `flagConf.type` is one of the three allowed type strings
(`[...allowedTypes].includes(flagConf.type)` compares against string values). -/
def isAllowedTypeVal : Option JVal → Bool
  | some (.jstr s) => s = "string" ∨ s = "number" ∨ s = "boolean"
  | _ => false

/-- `typeof x` is one of the three allowed type strings
(`[...allowedTypes].includes(typeof flagConf.default)`). -/
def isAllowedTypeof (o : Option JVal) : Bool :=
  typeofOpt o = "string" ∨ typeofOpt o = "number" ∨ typeofOpt o = "boolean"

/-- The per-flag checks of `cliConfParser` (type, default, description, alias),
in source order. Note the `type`-presence diagnostic names only the command,
not the flag, exactly as in the source. -/
def validateFlagConf (commandName flagName : String) (flagConf : Option JVal) :
    Except VErr Unit :=
  match hasOwnE flagConf "type" with
  | .error e => .error e
  | .ok hasType =>
    if hasType then
      if isAllowedTypeVal (getPropOpt flagConf "type") then
        match hasOwnE flagConf "default" with
        | .error e => .error e
        | .ok hasDefault =>
          if hasDefault then
            if isAllowedTypeof (getPropOpt flagConf "default") then
              match hasOwnE flagConf "description" with
              | .error e => .error e
              | .ok hasDescription =>
                if hasDescription then
                  if typeofOpt (getPropOpt flagConf "description") = "string" then
                    match hasOwnE flagConf "alias" with
                    | .error e => .error e
                    | .ok hasAlias =>
                      if hasAlias then
                        if typeofOpt (getPropOpt flagConf "alias") = "string" then .ok ()
                        else .error (.diag ("The command flag alias property must be a string in commands."
                          ++ commandName ++ ".flags." ++ flagName))
                      else .error (.diag ("The command flag must have an alias property in commands."
                        ++ commandName ++ ".flags." ++ flagName))
                  else .error (.diag ("The command flag description property must be a string in commands."
                    ++ commandName ++ ".flags." ++ flagName))
                else .error (.diag ("The command flag must have a description property in commands."
                  ++ commandName ++ ".flags." ++ flagName))
            else .error (.diag ("The command flag default property must be a string, number or boolean in commands."
              ++ commandName ++ ".flags." ++ flagName))
          else .error (.diag ("The command flag must have a default property in commands."
            ++ commandName ++ ".flags." ++ flagName))
      else .error (.diag ("The command flag type property must be a string, number or boolean in commands."
        ++ commandName ++ ".flags." ++ flagName))
    else .error (.diag ("The command flag must have a type property in commands." ++ commandName))

/-- The `forEach` over `Object.keys(commandConf.flags)`. -/
def validateFlags (commandName : String) (flagsObj : Option JVal) :
    List String → Except VErr Unit
  | [] => .ok ()
  | flagName :: rest =>
    match validateFlagConf commandName flagName (getPropOpt flagsObj flagName) with
    | .error e => .error e
    | .ok () => validateFlags commandName flagsObj rest

/-- The per-element checks of the `commandConf.args.forEach` loop. -/
def validateArg (commandName : String) (arg : JVal) : Except VErr Unit :=
  match hasOwnE (some arg) "name" with
  | .error e => .error e
  | .ok hasName =>
    if hasName then
      if typeofOpt (getProp arg "name") = "string" then .ok ()
      else .error (.diag ("The command arg name property must be a string in commands."
        ++ commandName))
    else .error (.diag ("The command arg must have a name property in commands."
      ++ commandName))

/-- The `forEach` over `commandConf.args`. -/
def validateArgs (commandName : String) : List JVal → Except VErr Unit
  | [] => .ok ()
  | arg :: rest =>
    match validateArg commandName arg with
    | .error e => .error e
    | .ok () => validateArgs commandName rest

/-- The per-flag section of the per-command checks: `Object.keys` on the flags
value (a `TypeError` when it is `null`), then the per-flag loop. -/
def validateFlagsSection (commandName : String) (flagsObj : Option JVal) :
    Except VErr Unit :=
  match objKeysE flagsObj with
  | .error e => .error e
  | .ok flagKeys => validateFlags commandName flagsObj flagKeys

/-- The per-command checks of `cliConfParser`: description (via
`Object.keys(commandConf).includes`), args, flags, then the per-flag loop. -/
def validateCommand (commandName : String) (commandConf : Option JVal) :
    Except VErr Unit :=
  match objKeysE commandConf with
  | .error e => .error e
  | .ok keys =>
    if keys.contains "description" then
      if typeofOpt (getPropOpt commandConf "description") = "string" then
        match hasOwnE commandConf "args" with
        | .error e => .error e
        | .ok hasArgs =>
          if hasArgs then
            if isArrayB (getPropOpt commandConf "args") then
              match validateArgs commandName (jarrElems (getPropOpt commandConf "args")) with
              | .error e => .error e
              | .ok () =>
                match hasOwnE commandConf "flags" with
                | .error e => .error e
                | .ok hasFlags =>
                  if hasFlags then
                    if typeofOpt (getPropOpt commandConf "flags") = "object" then
                      validateFlagsSection commandName (getPropOpt commandConf "flags")
                    else .error (.diag ("The command flags property must be an object in commands."
                      ++ commandName))
                  else .error (.diag ("The command must have an flags property in commands."
                    ++ commandName))
            else .error (.diag ("The command args property must be an array in commands."
              ++ commandName))
          else .error (.diag ("The command must have an args property in commands."
            ++ commandName))
      else .error (.diag ("the commands." ++ commandName
        ++ ".description property must be a string"))
    else .error (.diag ("the commands." ++ commandName
      ++ ".description property in config was required"))

/-- The `forEach` over `Object.keys(cliConfObj.commands)`. -/
def validateCommands (commandsObj : Option JVal) : List String → Except VErr Unit
  | [] => .ok ()
  | commandName :: rest =>
    match validateCommand commandName (getPropOpt commandsObj commandName) with
    | .error e => .error e
    | .ok () => validateCommands commandsObj rest

/-- The per-command section of the top-level checks: `Object.keys` on the
commands value (a `TypeError` when it is `null`), then the per-command loop. -/
def validateCommandsSection (commandsObj : Option JVal) : Except VErr Unit :=
  match objKeysE commandsObj with
  | .error e => .error e
  | .ok commandKeys => validateCommands commandsObj commandKeys

/-- The schema checks of `cliConfParser` on the parsed config value, in source
order: name, version, description, commands, then the per-command loop. -/
def cliConfValidate (cliConfObj : JVal) : Except VErr Unit :=
  match hasOwnE (some cliConfObj) "name" with
  | .error e => .error e
  | .ok hasName =>
    if hasName then
      if typeofOpt (getProp cliConfObj "name") = "string" then
        match hasOwnE (some cliConfObj) "version" with
        | .error e => .error e
        | .ok hasVersion =>
          if hasVersion then
            if typeofOpt (getProp cliConfObj "version") = "string" then
              match hasOwnE (some cliConfObj) "description" with
              | .error e => .error e
              | .ok hasDescription =>
                if hasDescription then
                  if typeofOpt (getProp cliConfObj "description") = "string" then
                    match hasOwnE (some cliConfObj) "commands" with
                    | .error e => .error e
                    | .ok hasCommands =>
                      if hasCommands then
                        if typeofOpt (getProp cliConfObj "commands") = "object" then
                          validateCommandsSection (getProp cliConfObj "commands")
                        else .error (.diag "The commands property must be an object")
                      else .error (.diag "Config must have a commands property")
                  else .error (.diag "The description property must be a string")
                else .error (.diag "Config must have a description property")
            else .error (.diag "The version property must be a string")
          else .error (.diag "Config must have a version property")
      else .error (.diag "The name property must be a string")
    else .error (.diag "Config must have a name property")

/-! ## Reading the validated config into `CliConfType` (the `as CliConfType`
cast of the source: after validation every field read below has the validated
shape, so the fallback branches are never taken on validated values) -/

/-- String content of a value (validated to be a string where this is used). -/
def getStrD : Option JVal → String
  | some (.jstr s) => s
  | _ => ""

/-- Keys of an object value, empty for anything without keys. -/
def keysD : Option JVal → List String
  | some v => objKeysB v
  | none => []

/-- Read one `FlagConfig` out of the config value. -/
def toFlagConf (v : Option JVal) : FlagConfig :=
  { type :=
      match getPropOpt v "type" with
      | some (.jstr "number") => FlagType.num
      | some (.jstr "boolean") => FlagType.bool
      | _ => FlagType.str,
    defaultVal := (getPropOpt v "default").getD JVal.jnull,
    description := getStrD (getPropOpt v "description"),
    aliasName := getStrD (getPropOpt v "alias") }

/-- Read one `CommandType` out of the config value. -/
def toCommand (v : Option JVal) : CommandType :=
  { description := getStrD (getPropOpt v "description"),
    args := (jarrElems (getPropOpt v "args")).map
      (fun a => { name := getStrD (getProp a "name") }),
    flags := (keysD (getPropOpt v "flags")).map
      (fun k => (k, toFlagConf (getPropOpt (getPropOpt v "flags") k))) }

/-- Read the whole `CliConfType` out of the validated config value. -/
def toCliConf (v : JVal) : CliConfType :=
  { name := getStrD (getProp v "name"),
    version := getStrD (getProp v "version"),
    description := getStrD (getProp v "description"),
    commands := (keysD (getProp v "commands")).map
      (fun c => (c, toCommand (getPropOpt (getProp v "commands") c))) }

/-! ## `cliConfParser` and the top-level driver -/

/-- `cliConfParser` of the source: locator extraction, `JSON5.parse` (passed in
as `json5parse`, the vendored relaxed-JSON library; `none` is a parse failure),
then schema validation and the cast to `CliConfType`. -/
def cliConfParser (json5parse : String → Option JVal) (cliArgs : List String) :
    Except VErr CliConfType :=
  match extractConfig cliArgs with
  | none => .error .crash
  | some cliConfig =>
    if cliConfig = "" then
      .error (.diag "No config file found, please add a config with the --config | -c flag")
    else
      match json5parse cliConfig with
      | none => .error (.diag "Invalid config")
      | some cliConfObj =>
        match cliConfValidate cliConfObj with
        | .error e => .error e
        | .ok () => .ok (toCliConf cliConfObj)

/-- The top-level driver (lines 593-601): `checkConfFlag`, `cliConfParser`,
`inputParser` on the config-stripped arguments, then the per-command help
re-rendering. -/
def pipeline (json5parse : String → Option JVal) (cliArgs : List String) :
    Except VErr InputAction :=
  match checkConfFlag cliArgs with
  | .error e => .error (.diag e)
  | .ok () =>
    match cliConfParser json5parse cliArgs with
    | .error e => .error e
    | .ok cliConf =>
      match inputParser (removeConfFlag cliArgs) cliConf with
      | .error e => .error (.diag e)
      | .ok result =>
        .ok (if result.action = ActionType.help ∧ result.command.isSome then
          { result with output := commandHelpDoc result cliConf }
        else result)

/-- Process exit status of a run: `ExitError` and uncaught errors exit with 1,
and the driver ends with `std.exit(1)` when the final payload has
`success: false`; otherwise the process ends normally with status 0. -/
def driverExit (json5parse : String → Option JVal) (cliArgs : List String) : Nat :=
  match pipeline json5parse cliArgs with
  | .error _ => 1
  | .ok result => if result.success then 0 else 1

/-! ## Sample configuration (the example of spec §8) used by concrete checks -/

/-- The §8 example configuration as a parsed JSON value. -/
def sampleJ : JVal :=
  .jobj [("name", .jstr "app"), ("version", .jstr "1.0"), ("description", .jstr "d"),
    ("commands", .jobj [("init", .jobj [("description", .jstr "x"),
      ("args", .jarr []),
      ("flags", .jobj [("force", .jobj [("type", .jstr "boolean"),
        ("default", .jbool false), ("description", .jstr "f"),
        ("alias", .jstr "f")])])])])]

/-- The §8 example configuration as a `CliConfType`. -/
def sampleConf : CliConfType :=
  { name := "app", version := "1.0", description := "d",
    commands := [("init",
      { description := "x", args := [],
        flags := [("force",
          { type := FlagType.bool, defaultVal := JVal.jbool false,
            description := "f", aliasName := "f" })] })] }

/-- A `JSON5.parse` stub that returns the sample config for any locator text. -/
def sampleParse : String → Option JVal := fun _ => some sampleJ

/-- Expected result of parsing `["init", "-f"]` under the sample config. -/
def sampleInitResult : InputAction :=
  { success := true, action := ActionType.command, output := "",
    command := some
      { name := "init", args := [], flags := [("force", FlagValue.bool true)] } }

/-! ## Claim C6: characterisation of the locator value -/

/-- The candidate locator values in scan order: for every `--config`/`-c`
occurrence followed by a token, that token when it does not start with `-`
(an occurrence whose follower starts with `-` contributes nothing). -/
def qualifiers : List String → List String
  | [] => []
  | arg :: rest =>
    if arg = "--config" ∨ arg = "-c" then
      match rest with
      | [] => []
      | next :: _ =>
        (if strStartsWith next "-" then [] else [next]) ++ qualifiers rest
    else qualifiers rest

/-- A second command configuration, with a string-typed flag, used by concrete
checks of value consumption. -/
def strNameFc : FlagConfig :=
  { type := FlagType.str, defaultVal := JVal.jstr "", description := "n",
    aliasName := "n" }

/-- A command whose only flag is the string-typed `name`. -/
def strCmd : CommandType :=
  { description := "g", args := [], flags := [("name", strNameFc)] }

/-- The `force` flag configuration of the §8 example. -/
def forceFc : FlagConfig :=
  { type := FlagType.bool, defaultVal := JVal.jbool false, description := "f",
    aliasName := "f" }

/-- The `init` command configuration of the §8 example. -/
def initCmd : CommandType :=
  { description := "x", args := [], flags := [("force", forceFc)] }

/-- A validated-shape configuration whose only command declares a flag whose
name is the empty string (allowed by the validator) with alias `x`. -/
def emptyNameConf : CliConfType :=
  { name := "app", version := "1", description := "d",
    commands := [("c",
      { description := "", args := [],
        flags := [("",
          { type := FlagType.bool, defaultVal := JVal.jbool false,
            description := "", aliasName := "x" })] })] }

/-! ## Claim C9: the flags mapping holds exactly the supplied flags -/

/-- The flag names supplied on the command line, read off the token list the
way the loop does: version tokens stop the scan, recognized flags register
their declared name (string/number flags skipping their value token),
positionals register nothing. On lists where the loop raises an error the
value is irrelevant (the claim quantifies over successful parses). -/
def suppliedFlags (commandConf : CommandType) (command : String) :
    List String → List String
  | [] => []
  | arg :: rest =>
    if arg = "--version" ∨ arg = "-v" then []
    else
      match resolveFlag arg commandConf command with
      | .error _ => []
      | .ok flag =>
        if flag ≠ "" then
          match commandConf.flags.find? (fun p => p.1 = flag) with
          | none => []
          | some p =>
            if p.2.type = FlagType.bool then flag :: suppliedFlags commandConf command rest
            else
              match rest with
              | [] => [flag]
              | _ :: rest2 => flag :: suppliedFlags commandConf command rest2
        else suppliedFlags commandConf command rest

/-- The global-help payload under the §8 example configuration. -/
def globalHelpResult : InputAction :=
  { success := false, action := ActionType.help, output := helpDoc sampleConf,
    command := none }

/-! ## Claim C7: validation is fail-fast in the spec traversal order -/

/-- `hasOwnProperty`, totalised for the spec-side check lists (`null` and
`undefined` own nothing). -/
def hasOwnT : Option JVal → String → Bool
  | none, _ => false
  | some v, k => hasOwnB v k

/-- `Object.keys`, totalised for the spec-side check lists. -/
def keysT : Option JVal → List String
  | none => []
  | some v => objKeysB v

/-- The failed checks of a list, in order. -/
def failuresOf (checks : List (Bool × String)) : List String :=
  checks.filterMap (fun c => if c.1 then none else some c.2)

/-- The outcome determined by an ordered list of diagnostics: the first one,
or success when there is none. -/
def headToExcept : List String → Except VErr Unit
  | [] => .ok ()
  | d :: _ => .error (.diag d)

/-- Run an ordered list of checks, stopping at the first failure. -/
def checksToExcept : List (Bool × String) → Except VErr Unit
  | [] => .ok ()
  | (c, m) :: rest => if c then checksToExcept rest else .error (.diag m)

/-- The per-flag checks in the spec traversal order
(type → default → description → alias, presence before type). -/
def flagChecks (commandName flagName : String) (flagConf : Option JVal) :
    List (Bool × String) :=
  [(hasOwnT flagConf "type",
    "The command flag must have a type property in commands." ++ commandName),
   (isAllowedTypeVal (getPropOpt flagConf "type"),
    "The command flag type property must be a string, number or boolean in commands."
      ++ commandName ++ ".flags." ++ flagName),
   (hasOwnT flagConf "default",
    "The command flag must have a default property in commands."
      ++ commandName ++ ".flags." ++ flagName),
   (isAllowedTypeof (getPropOpt flagConf "default"),
    "The command flag default property must be a string, number or boolean in commands."
      ++ commandName ++ ".flags." ++ flagName),
   (hasOwnT flagConf "description",
    "The command flag must have a description property in commands."
      ++ commandName ++ ".flags." ++ flagName),
   (decide (typeofOpt (getPropOpt flagConf "description") = "string"),
    "The command flag description property must be a string in commands."
      ++ commandName ++ ".flags." ++ flagName),
   (hasOwnT flagConf "alias",
    "The command flag must have an alias property in commands."
      ++ commandName ++ ".flags." ++ flagName),
   (decide (typeofOpt (getPropOpt flagConf "alias") = "string"),
    "The command flag alias property must be a string in commands."
      ++ commandName ++ ".flags." ++ flagName)]

/-- The per-positional-slot checks (name presence, then its type). -/
def argChecks (commandName : String) (arg : JVal) : List (Bool × String) :=
  [(hasOwnT (some arg) "name",
    "The command arg must have a name property in commands." ++ commandName),
   (decide (typeofOpt (getProp arg "name") = "string"),
    "The command arg name property must be a string in commands." ++ commandName)]

/-- The per-command checks in the spec traversal order:
description → args → flags → per-flag checks. -/
def commandChecks (commandName : String) (commandConf : Option JVal) :
    List (Bool × String) :=
  [((keysT commandConf).contains "description",
    "the commands." ++ commandName ++ ".description property in config was required"),
   (decide (typeofOpt (getPropOpt commandConf "description") = "string"),
    "the commands." ++ commandName ++ ".description property must be a string"),
   (hasOwnT commandConf "args",
    "The command must have an args property in commands." ++ commandName),
   (isArrayB (getPropOpt commandConf "args"),
    "The command args property must be an array in commands." ++ commandName)]
  ++ (jarrElems (getPropOpt commandConf "args")).flatMap (argChecks commandName)
  ++ [(hasOwnT commandConf "flags",
    "The command must have an flags property in commands." ++ commandName),
   (decide (typeofOpt (getPropOpt commandConf "flags") = "object"),
    "The command flags property must be an object in commands." ++ commandName)]
  ++ (keysT (getPropOpt commandConf "flags")).flatMap
      (fun fn => flagChecks commandName fn (getPropOpt (getPropOpt commandConf "flags") fn))

/-- The top-level checks in the spec traversal order:
name → version → description → commands. -/
def topChecks (v : JVal) : List (Bool × String) :=
  [(hasOwnT (some v) "name", "Config must have a name property"),
   (decide (typeofOpt (getProp v "name") = "string"),
    "The name property must be a string"),
   (hasOwnT (some v) "version", "Config must have a version property"),
   (decide (typeofOpt (getProp v "version") = "string"),
    "The version property must be a string"),
   (hasOwnT (some v) "description", "Config must have a description property"),
   (decide (typeofOpt (getProp v "description") = "string"),
    "The description property must be a string"),
   (hasOwnT (some v) "commands", "Config must have a commands property"),
   (decide (typeofOpt (getProp v "commands") = "object"),
    "The commands property must be an object")]

/-- All violated checks of a configuration value, listed in the spec traversal
order name → version → description → commands → per-command description →
args → flags → per-flag type/default/description/alias. -/
def specViolations (v : JVal) : List String :=
  failuresOf (topChecks v
    ++ (keysT (getProp v "commands")).flatMap
        (fun cn => commandChecks cn (getPropOpt (getProp v "commands") cn)))

/-- Sequencing of two validation steps, as the source writes it. -/
def seqV (x y : Except VErr Unit) : Except VErr Unit :=
  match x with
  | .error e => .error e
  | .ok () => y

/-- A configuration value with several violations: `name` is a number, and
`version`/`description` are missing, `commands` is a string. -/
def badConfJ : JVal := .jobj [("name", .jnum 1), ("commands", .jstr "nope")]

/-- A configuration whose single command `c` declares a flag `force` lacking
the `type` property; every check before the per-flag `type` presence check
passes. -/
def flagNoTypeJ : JVal :=
  .jobj [("name", .jstr "a"), ("version", .jstr "1"), ("description", .jstr "d"),
    ("commands", .jobj [("c",
      .jobj [("description", .jstr "x"), ("args", .jarr []),
        ("flags", .jobj [("force", .jobj [])])])])]

/-- Like `flagNoTypeJ`, but the flag lacking `type` is named `other` instead of
`force`. -/
def flagNoTypeJ2 : JVal :=
  .jobj [("name", .jstr "a"), ("version", .jstr "1"), ("description", .jstr "d"),
    ("commands", .jobj [("c",
      .jobj [("description", .jstr "x"), ("args", .jarr []),
        ("flags", .jobj [("other", .jobj [])])])])]

/-- A configuration whose `commands` object maps the command `x` to `null`: the
per-command checks call `Object.keys(null)` and abort with an uncaught
JS `TypeError`. -/
def nullCmdJ : JVal :=
  .jobj [("name", .jstr "a"), ("version", .jstr "1"), ("description", .jstr "d"),
    ("commands", .jobj [("x", .jnull)])]

example : typeofStr (.jarr []) = "object" := rfl
example : hasOwnB (.jobj [("name", .jstr "x")]) "name" = true := by decide
example : objKeysB (.jobj [("b", .jnull), ("1", .jnull), ("a", .jnull)]) = ["1", "b", "a"] := by decide
example : isIndexKey "01" = false := by decide
example : getProp (.jarr [.jstr "x"]) "0" = some (.jstr "x") := rfl

example : cliConfValidate sampleJ = .ok () := rfl
example : toCliConf sampleJ = sampleConf := rfl
example : inputParser ["init", "-f"] sampleConf = .ok sampleInitResult := rfl
example : inputParser ["bogus"] sampleConf =
    .error "The command bogus is not a valid command" := rfl
example : inputParser ["--version"] sampleConf =
    .ok { success := true, action := ActionType.version, output := "app@1.0",
          command := none } := rfl
example : removeConfFlag ["--config", "c", "init"] = ["init"] := by decide

/-! ## List-index helpers shared by the loop proofs -/

theorem drop_cons_succ {α : Type} {l : List α} {i : Nat} {a : α} {t : List α}
    (h : l.drop i = a :: t) : l.drop (i + 1) = t := by
  have h2 : l.drop (i + 1) = (l.drop i).drop 1 := by
    rw [List.drop_drop]
  rw [h2, h, List.drop_one, List.tail_cons]

theorem get_succ_of_drop {α : Type} {l : List α} {i : Nat} {a : α} {t : List α}
    (h : l.drop i = a :: t) : l.get? (i + 1) = t.head? := by
  rw [List.get?_eq_getElem?, ← List.head?_drop, drop_cons_succ h]

theorem length_of_drop {α : Type} {l : List α} {i : Nat} {a : α} {t : List α}
    (h : l.drop i = a :: t) : l.length = i + t.length + 1 := by
  have hlt : ¬ l.length ≤ i := by
    intro hle
    rw [List.drop_eq_nil_iff.mpr hle] at h
    exact List.noConfusion h
  have hlen : (l.drop i).length = l.length - i := List.length_drop i l
  rw [h] at hlen
  simp only [List.length_cons] at hlen
  omega

/-! ## Claim C2: behaviour of `removeHelpFlag` -/

/-- Claim C2 (code behaviour at the failing input): with `--help` appearing
exactly once in `["init", "--help", "extra"]`, `removeHelpFlag` drops the help
token and also the token `"extra"` immediately after it, returning `["init"]`;
the claim (and spec step 4) instead require `["init", "extra"]`. The `i++`
before `continue` in the source loop combines with the `for` update to skip
two tokens, as in `removeConfFlag` where the second token is the flag value —
for the valueless help flag this contradicts the documented behaviour of
removing only the flag. -/
theorem removeHelpFlag_drops_following_token :
    isArgsIncludeHelpFlag ["init", "--help", "extra"] = .ok true ∧
    removeHelpFlag ["init", "--help", "extra"] = ["init"] := by
  exact ⟨rfl, rfl⟩

/-! ## Claim C10: the extraction scan stays in bounds after `checkConfFlag` -/

/-- If `checkConfGo` walks a suffix without raising, every `--config`/`-c` it
saw had a successor token, so the extraction scan on the same suffix never
reads past the end. -/
theorem extractConfGo_ne_none_of_checkConfGo
    (cliArgs : List String) :
    ∀ (rest : List String) (i : Nat) (acc : String) (hc : Bool) (b : Bool),
    cliArgs.length = i + rest.length →
    checkConfGo cliArgs rest i hc = .ok b →
    extractConfGo cliArgs rest i acc ≠ none := by
  intro rest
  induction rest with
  | nil =>
    intro i acc hc b _ _
    simp [extractConfGo]
  | cons arg rest ih =>
    intro i acc hc b hlen hchk
    simp only [List.length_cons] at hlen
    by_cases hflag : arg = "--config" ∨ arg = "-c"
    · have hne : ¬ cliArgs.length = i + 1 := by
        intro habs
        simp only [checkConfGo, if_pos hflag, if_pos habs] at hchk
        exact Except.noConfusion hchk
      have hrest : rest.length ≠ 0 := by omega
      have hlt : i + 1 < cliArgs.length := by omega
      have hget : ∃ nextArg, cliArgs.get? (i + 1) = some nextArg := by
        rcases h : cliArgs.get? (i + 1) with _ | nextArg
        · rw [List.get?_eq_none] at h
          omega
        · exact ⟨nextArg, rfl⟩
      rcases hget with ⟨nextArg, hget⟩
      have hnext : i + 1 ≤ cliArgs.length := by omega
      simp only [checkConfGo, if_pos hflag, if_neg hne] at hchk
      simp only [extractConfGo, if_pos (And.intro hflag hnext), hget]
      exact ih (i + 1) _ true b (by omega) hchk
    · simp only [checkConfGo, if_neg hflag] at hchk
      simp only [extractConfGo]
      rw [if_neg (by tauto)]
      exact ih (i + 1) acc hc b (by omega) hchk

/-- Claim C10: when the presence check `checkConfFlag` succeeded (so no
`--config`/`-c` occurrence is the last token), the locator-extraction scan of
`cliConfParser` never reads past the end of the argument list — its read of
`cliArgs[i + 1]` is always in bounds even though its `hasNextArg` test compares
`i + 1 <= cliArgs.length`, which is vacuously true. `none` is returned exactly
when the scan reads past the end (JS `undefined.startsWith` TypeError). -/
theorem checkConfFlag_extraction_in_bounds
    (cliArgs : List String) (h : checkConfFlag cliArgs = .ok ()) :
    extractConfig cliArgs ≠ none := by
  unfold checkConfFlag at h
  rcases hchk : checkConfGo cliArgs cliArgs 0 false with e | b
  · rw [hchk] at h
    exact Except.noConfusion h
  · exact extractConfGo_ne_none_of_checkConfGo cliArgs cliArgs 0 "" false b (by omega) hchk

/-- Witness for C10 at a concrete input. -/
theorem checkConfFlag_extraction_in_bounds_witness :
    checkConfFlag ["--config", "x"] = .ok () ∧
    extractConfig ["--config", "x"] ≠ none :=
  ⟨rfl, checkConfFlag_extraction_in_bounds ["--config", "x"] rfl⟩

/-- One unfolding step of the extraction scan. -/
theorem extractConfGo_cons (cliArgs : List String) (arg : String) (rest : List String)
    (i : Nat) (acc : String) :
    extractConfGo cliArgs (arg :: rest) i acc =
      if (arg = "--config" ∨ arg = "-c") ∧ i + 1 ≤ cliArgs.length then
        match cliArgs.get? (i + 1) with
        | none => none
        | some nextArg =>
          extractConfGo cliArgs rest (i + 1)
            (if strStartsWith nextArg "-" then acc else nextArg)
      else extractConfGo cliArgs rest (i + 1) acc := rfl

/-- One unfolding step of `qualifiers` at a config flag with a follower. -/
theorem qualifiers_cons_flag (arg next : String) (rest : List String)
    (h : arg = "--config" ∨ arg = "-c") :
    qualifiers (arg :: next :: rest) =
      (if strStartsWith next "-" then [] else [next]) ++ qualifiers (next :: rest) := by
  rw [qualifiers, if_pos h]

/-- One unfolding step of `qualifiers` at an ordinary token. -/
theorem qualifiers_cons_other (arg : String) (rest : List String)
    (h : ¬ (arg = "--config" ∨ arg = "-c")) :
    qualifiers (arg :: rest) = qualifiers rest := by
  cases rest <;> simp [qualifiers, h]

/-- The extraction scan returns the last candidate value (the accumulator when
there is none): later qualifying occurrences overwrite earlier ones. -/
theorem extractConfGo_eq_last (cliArgs : List String) :
    ∀ (rest : List String) (i : Nat) (acc loc : String),
    cliArgs.drop i = rest →
    extractConfGo cliArgs rest i acc = some loc →
    loc = (qualifiers rest).getLastD acc := by
  intro rest
  induction rest with
  | nil =>
    intro i acc loc _ hrun
    simp only [extractConfGo, Option.some.injEq] at hrun
    simp [qualifiers, hrun]
  | cons arg rest ih =>
    intro i acc loc hdrop hrun
    have hlen := length_of_drop hdrop
    have hnext : i + 1 ≤ cliArgs.length := by omega
    have hget : cliArgs.get? (i + 1) = rest.head? := get_succ_of_drop hdrop
    have hdrop2 : cliArgs.drop (i + 1) = rest := drop_cons_succ hdrop
    by_cases hflag : arg = "--config" ∨ arg = "-c"
    · rcases rest with _ | ⟨next, rest2⟩
      · simp only [List.head?_nil] at hget
        rw [extractConfGo_cons, if_pos (And.intro hflag hnext), hget] at hrun
        exact Option.noConfusion hrun
      · simp only [List.head?_cons] at hget
        rw [extractConfGo_cons, if_pos (And.intro hflag hnext), hget] at hrun
        have hrw := ih (i + 1) _ loc hdrop2 hrun
        rw [qualifiers_cons_flag arg next rest2 hflag]
        by_cases hdash : strStartsWith next "-" = true
        · rw [if_pos hdash] at hrw
          rw [if_pos hdash, List.nil_append]
          exact hrw
        · rw [if_neg hdash] at hrw
          rw [if_neg hdash, List.singleton_append, List.getLastD_cons]
          exact hrw
    · rw [extractConfGo_cons] at hrun
      rw [if_neg (by tauto)] at hrun
      rw [qualifiers_cons_other arg rest hflag]
      exact ih (i + 1) acc loc hdrop2 hrun

/-- Claim C6: the extraction scan of `cliConfParser` keeps the token following
the last qualifying `--config`/`-c` occurrence (occurrences whose follower
starts with `-` contribute nothing), and when no occurrence yields a value the
locator is the empty string and `cliConfParser` fails with the
no-config-file-found diagnostic. -/
theorem cliConfParser_locator_last_occurrence
    (cliArgs : List String) (loc : String)
    (h : extractConfig cliArgs = some loc) :
    loc = (qualifiers cliArgs).getLastD "" ∧
    (loc = "" → ∀ json5parse, cliConfParser json5parse cliArgs =
      .error (.diag "No config file found, please add a config with the --config | -c flag")) := by
  constructor
  · exact extractConfGo_eq_last cliArgs cliArgs 0 "" loc rfl h
  · intro hempty json5parse
    unfold cliConfParser extractConfig
    unfold extractConfig at h
    rw [h, hempty]
    simp

/-- Witness for C6 at concrete inputs: two occurrences with the second follower
value winning, and a dash follower leading to the no-config-file error. -/
theorem cliConfParser_locator_last_occurrence_witness :
    ("B" = (qualifiers ["-c", "A", "--config", "B"]).getLastD "") ∧
    (cliConfParser (fun _ => none) ["-c", "-x"] =
      .error (.diag "No config file found, please add a config with the --config | -c flag")) :=
  ⟨(cliConfParser_locator_last_occurrence ["-c", "A", "--config", "B"] "B" rfl).1,
   (cliConfParser_locator_last_occurrence ["-c", "-x"] "" rfl).2 rfl (fun _ => none)⟩

/-! ## Claims C3 and C4: the version pre-scan -/

/-- Any argument list containing a `--version`/`-v` token is rejected by the
pre-scan unless its first token is `--version` or it is exactly `["-v"]`. -/
theorem isVersion_rejects (args : List String)
    (h1 : args.head? ≠ some "--version") (h2 : args ≠ ["-v"])
    (h3 : ∃ a ∈ args, a = "--version" ∨ a = "-v") :
    isVersion args = .error "The --version|-v flag must be set alone" := by
  rcases args with _ | ⟨a, t⟩
  · rcases h3 with ⟨a, ha, _⟩
    exact absurd ha (List.not_mem_nil a)
  · have hlen : ¬ (a :: t).length = 0 := by simp
    have hfirst : ¬ (a = "--version" ∨ (a = "-v" ∧ (a :: t).length = 1)) := by
      rintro (h | ⟨hv, hl⟩)
      · exact h1 (by simp [h])
      · have : t = [] := by
          simpa using hl
        exact h2 (by simp [hv, this])
    have hany : (a :: t).any (fun arg => decide (arg = "--version" ∨ arg = "-v")) = true := by
      rcases h3 with ⟨b, hb, hbv⟩
      exact List.any_eq_true.mpr ⟨b, hb, by simpa using hbv⟩
    unfold isVersion
    rw [if_neg hlen]
    simp only [List.headD_cons]
    rw [if_neg hfirst, if_pos hany]

/-- `inputParser` surfaces an `isVersion` error unchanged. -/
theorem inputParser_of_isVersion_error (args : List String) (cliConf : CliConfType)
    (e : String) (h : isVersion args = .error e) :
    inputParser args cliConf = .error e := by
  unfold inputParser
  rw [h]

/-- Claim C3 (counterexample): under the §8 example configuration, with the
declared command `init` first and `--version` after it, the parse does not
switch to the version action — the pre-scan raises the must-be-set-alone error
(the mid-command version branch of the loop is unreachable). -/
theorem inputParser_midCommand_version_errors :
    inputParser ["init", "--version"] sampleConf =
      .error "The --version|-v flag must be set alone" := rfl

/-- Claim C3 (amended): when the first token is a declared command (other than
the literal `--version`) and `--version`/`-v` occurs later, the whole parse
terminates with the error `The --version|-v flag must be set alone`; the
version action is never produced mid-command. -/
theorem inputParser_midCommand_version_amended
    (cliConf : CliConfType) (args : List String) (c : String)
    (hhead : args.head? = some c)
    (_hcmd : (cliConf.commands.map (fun p => p.1)).contains c = true)
    (hnv : c ≠ "--version")
    (hocc : ∃ j, 1 ≤ j ∧ (args.get? j = some "--version" ∨ args.get? j = some "-v")) :
    inputParser args cliConf = .error "The --version|-v flag must be set alone" := by
  rcases hocc with ⟨j, hj, hget⟩
  apply inputParser_of_isVersion_error
  apply isVersion_rejects
  · rw [hhead]
    intro habs
    exact hnv (by injection habs)
  · intro habs
    subst habs
    rcases hget with hget | hget <;>
      · rw [List.get?_eq_none.mpr (by simpa using hj)] at hget
        exact Option.noConfusion hget
  · rcases hget with hget | hget
    · exact ⟨"--version", List.get?_mem hget, Or.inl rfl⟩
    · exact ⟨"-v", List.get?_mem hget, Or.inr rfl⟩

/-- Witness for the amended C3 at a concrete input. -/
theorem inputParser_midCommand_version_amended_witness :
    inputParser ["init", "-f", "-v"] sampleConf =
      .error "The --version|-v flag must be set alone" :=
  inputParser_midCommand_version_amended sampleConf ["init", "-f", "-v"] "init"
    rfl (by decide) (by decide) ⟨2, by omega, Or.inr rfl⟩

/-- Claim C4 (counterexample): `["--version", "-v"]` has `-v` at a non-first
position, so the claim demands the must-be-set-alone error; the code instead
answers the version action successfully, because the first token being
`--version` short-circuits the scan. -/
theorem isVersion_first_token_wins :
    inputParser ["--version", "-v"] sampleConf =
      .ok { success := true, action := ActionType.version, output := "app@1.0",
            command := none } := rfl

/-- Claim C4 (amended): provided the first token is not `--version` and the
list is not exactly `["-v"]`, any occurrence of `--version`/`-v` makes the
parse terminate with `The --version|-v flag must be set alone`, regardless of
the other tokens. -/
theorem inputParser_version_misuse_amended
    (cliConf : CliConfType) (args : List String)
    (h1 : args.head? ≠ some "--version") (h2 : args ≠ ["-v"])
    (h3 : ∃ a ∈ args, a = "--version" ∨ a = "-v") :
    inputParser args cliConf = .error "The --version|-v flag must be set alone" :=
  inputParser_of_isVersion_error args cliConf _ (isVersion_rejects args h1 h2 h3)

/-- Witness for the amended C4 at a concrete input. -/
theorem inputParser_version_misuse_amended_witness :
    inputParser ["x", "--version"] sampleConf =
      .error "The --version|-v flag must be set alone" :=
  inputParser_version_misuse_amended sampleConf ["x", "--version"]
    (by decide) (by decide) ⟨"--version", by simp, Or.inl rfl⟩

/-! ## Claim C5: value consumption per recognized flag -/

/-- `checkFlag` at a declared flag reduces to the missing-value test. -/
theorem checkFlag_eq (inputArgsIndex : Nat) (inputFlag : String)
    (inputCommandConf : CommandType) (inputCliArgs : List String)
    (inputCommandName : String) (fc : FlagConfig)
    (hfind : inputCommandConf.flags.find? (fun p => p.1 = inputFlag) = some (inputFlag, fc)) :
    checkFlag inputArgsIndex inputFlag inputCommandConf inputCliArgs inputCommandName =
      if (fc.type = FlagType.str ∨ fc.type = FlagType.num)
          ∧ inputCliArgs.length = inputArgsIndex + 1 then
        .error ("The flag --" ++ inputFlag ++ " must have a value in command: "
          ++ inputCommandName)
      else .ok fc := by
  unfold checkFlag
  rw [hfind]

/-- `parseFlag` at a boolean flag. -/
theorem parseFlag_bool (fc : FlagConfig) (cliArgs : List String) (i : Nat)
    (h : fc.type = FlagType.bool) :
    parseFlag fc cliArgs i = (FlagValue.bool true, i) := by
  unfold parseFlag
  rw [h]
  rfl

/-- `parseFlag` at a string flag. -/
theorem parseFlag_str (fc : FlagConfig) (cliArgs : List String) (i : Nat)
    (h : fc.type = FlagType.str) :
    parseFlag fc cliArgs i = (FlagValue.str (cliArgs.get? (i + 1)), i + 1) := by
  unfold parseFlag
  rw [h]
  rfl

/-- `parseFlag` at a number flag. -/
theorem parseFlag_num (fc : FlagConfig) (cliArgs : List String) (i : Nat)
    (h : fc.type = FlagType.num) :
    parseFlag fc cliArgs i = (FlagValue.num (cliArgs.get? (i + 1)), i + 1) := by
  unfold parseFlag
  rw [h]
  rfl

/-- Claim C5: one loop step at a recognized flag (`resolveFlag` answered a
declared name). A `boolean` flag stores `true` and the loop continues at the
very next token; a `string`/`number` flag with no next token fails with the
must-have-a-value error; otherwise the next token is consumed as the value
(the `number` case keeping the token under the symbolic conversion, never an
error) and the loop continues after it. -/
theorem inputLoop_flag_step
    (cliConf : CliConfType) (commandConf : CommandType) (command : String)
    (baseAction : ActionType) (cliArgs : List String) (arg : String)
    (rest : List String) (i : Nat) (acc : CommandResult) (flag : String)
    (fc : FlagConfig)
    (hdrop : cliArgs.drop i = arg :: rest)
    (hver : ¬ (arg = "--version" ∨ arg = "-v"))
    (hres : resolveFlag arg commandConf command = .ok flag)
    (hne : flag ≠ "")
    (hfind : commandConf.flags.find? (fun p => p.1 = flag) = some (flag, fc)) :
    (fc.type = FlagType.bool →
      inputLoop cliConf commandConf command baseAction cliArgs (arg :: rest) i acc =
        inputLoop cliConf commandConf command baseAction cliArgs rest (i + 1)
          { acc with flags := setFlagProp acc.flags flag (FlagValue.bool true) }) ∧
    ((fc.type = FlagType.str ∨ fc.type = FlagType.num) → rest = [] →
      inputLoop cliConf commandConf command baseAction cliArgs (arg :: rest) i acc =
        .error ("The flag --" ++ flag ++ " must have a value in command: " ++ command)) ∧
    (fc.type = FlagType.str → ∀ b rest2, rest = b :: rest2 →
      inputLoop cliConf commandConf command baseAction cliArgs (arg :: rest) i acc =
        inputLoop cliConf commandConf command baseAction cliArgs rest2 (i + 2)
          { acc with flags := setFlagProp acc.flags flag (FlagValue.str (some b)) }) ∧
    (fc.type = FlagType.num → ∀ b rest2, rest = b :: rest2 →
      inputLoop cliConf commandConf command baseAction cliArgs (arg :: rest) i acc =
        inputLoop cliConf commandConf command baseAction cliArgs rest2 (i + 2)
          { acc with flags := setFlagProp acc.flags flag (FlagValue.num (some b)) }) := by
  have hlen := length_of_drop hdrop
  have hget : cliArgs.get? (i + 1) = rest.head? := get_succ_of_drop hdrop
  refine ⟨?_, ?_, ?_, ?_⟩
  · intro htype
    have hcf : checkFlag i flag commandConf cliArgs command = .ok fc := by
      rw [checkFlag_eq i flag commandConf cliArgs command fc hfind]
      rw [if_neg (by simp [htype])]
    have hpf := parseFlag_bool fc cliArgs i htype
    simp only [inputLoop]
    rw [if_neg hver]
    simp only [hres]
    rw [if_pos hne]
    simp only [hcf, hpf, if_pos rfl]
    rw [if_pos trivial]
  · intro htype hrest
    have hlen0 : cliArgs.length = i + 1 := by
      rw [hrest] at hlen
      simpa using hlen
    have hcf : checkFlag i flag commandConf cliArgs command =
        .error ("The flag --" ++ flag ++ " must have a value in command: " ++ command) := by
      rw [checkFlag_eq i flag commandConf cliArgs command fc hfind]
      rw [if_pos (And.intro htype hlen0)]
    simp only [inputLoop]
    rw [if_neg hver]
    simp only [hres]
    rw [if_pos hne]
    simp only [hcf]
  · intro htype b rest2 hrest
    have hlen0 : ¬ cliArgs.length = i + 1 := by
      rw [hrest] at hlen
      simp only [List.length_cons] at hlen
      omega
    have hcf : checkFlag i flag commandConf cliArgs command = .ok fc := by
      rw [checkFlag_eq i flag commandConf cliArgs command fc hfind]
      rw [if_neg (by rintro ⟨_, habs⟩; exact hlen0 habs)]
    have hpf := parseFlag_str fc cliArgs i htype
    have hval : cliArgs.get? (i + 1) = some b := by
      rw [hget, hrest]
      rfl
    simp only [inputLoop]
    rw [if_neg hver]
    simp only [hres]
    rw [if_pos hne]
    simp only [hcf, hpf, hval]
    rw [if_neg (by omega)]
    simp only [hrest]
  · intro htype b rest2 hrest
    have hlen0 : ¬ cliArgs.length = i + 1 := by
      rw [hrest] at hlen
      simp only [List.length_cons] at hlen
      omega
    have hcf : checkFlag i flag commandConf cliArgs command = .ok fc := by
      rw [checkFlag_eq i flag commandConf cliArgs command fc hfind]
      rw [if_neg (by rintro ⟨_, habs⟩; exact hlen0 habs)]
    have hpf := parseFlag_num fc cliArgs i htype
    have hval : cliArgs.get? (i + 1) = some b := by
      rw [hget, hrest]
      rfl
    simp only [inputLoop]
    rw [if_neg hver]
    simp only [hres]
    rw [if_pos hne]
    simp only [hcf, hpf, hval]
    rw [if_neg (by omega)]
    simp only [hrest]

/-- Witness for C5 at concrete inputs: a boolean flag consuming nothing and a
string flag consuming the next token. -/
theorem inputLoop_flag_step_witness :
    (inputLoop sampleConf initCmd "init" ActionType.command ["-f"] ["-f"] 0
        { name := "init", args := [], flags := [] } =
      inputLoop sampleConf initCmd "init" ActionType.command ["-f"] [] 1
        { name := "init", args := [],
          flags := setFlagProp [] "force" (FlagValue.bool true) }) ∧
    (inputLoop sampleConf strCmd "greet" ActionType.command ["--name", "bob"]
        ["--name", "bob"] 0 { name := "greet", args := [], flags := [] } =
      inputLoop sampleConf strCmd "greet" ActionType.command ["--name", "bob"] [] 2
        { name := "greet", args := [],
          flags := setFlagProp [] "name" (FlagValue.str (some "bob")) }) :=
  ⟨(inputLoop_flag_step sampleConf initCmd "init" ActionType.command ["-f"] "-f" [] 0
      { name := "init", args := [], flags := [] } "force" forceFc rfl (by decide) rfl
      (by decide) rfl).1 rfl,
   (inputLoop_flag_step sampleConf strCmd "greet" ActionType.command ["--name", "bob"]
      "--name" ["bob"] 0 { name := "greet", args := [], flags := [] } "name" strNameFc
      rfl (by decide) rfl (by decide) rfl).2.2.1 rfl "bob" [] rfl⟩

/-! ## Claim C8: shape of resolved command results -/

/-- Every entry of `mapSet m k v` is an entry of `m` or the pair `(k, v)`. -/
theorem mapSet_mem (m : List (String × String)) (k v : String) :
    ∀ q ∈ mapSet m k v, q ∈ m ∨ q = (k, v) := by
  intro q hq
  unfold mapSet at hq
  by_cases hmem : m.any (fun p => p.1 = k) = true
  · rw [if_pos hmem] at hq
    rcases List.mem_map.mp hq with ⟨p, hp, hpq⟩
    by_cases hpk : p.1 = k
    · right
      rw [← hpq, if_pos hpk]
    · left
      rw [← hpq, if_neg hpk]
      exact hp
  · rw [if_neg hmem] at hq
    rcases List.mem_append.mp hq with h | h
    · exact Or.inl h
    · right
      simpa using h
/-- Every value stored in the alias map is a declared flag name. -/
theorem buildAliasMap_values_aux (flags : List (String × FlagConfig)) :
    ∀ (l : List (String × FlagConfig)) (acc : List (String × String)),
    (∀ q ∈ acc, flags.any (fun p => p.1 = q.2) = true) →
    (∀ p ∈ l, flags.any (fun r => r.1 = p.1) = true) →
    ∀ q ∈ l.foldl (fun a p => mapSet a p.2.aliasName p.1) acc,
      flags.any (fun p => p.1 = q.2) = true := by
  intro l
  induction l with
  | nil =>
    intro acc hacc _ q hq
    exact hacc q hq
  | cons p l ih =>
    intro acc hacc hl q hq
    simp only [List.foldl_cons] at hq
    refine ih (mapSet acc p.2.aliasName p.1) ?_ (fun r hr => hl r (List.mem_cons_of_mem p hr)) q hq
    intro q2 hq2
    rcases mapSet_mem acc p.2.aliasName p.1 q2 hq2 with h | h
    · exact hacc q2 h
    · rw [h]
      exact hl p (List.mem_cons_self p l)

/-- Every value stored in the alias map is a declared flag name. -/
theorem buildAliasMap_values (flags : List (String × FlagConfig)) :
    ∀ q ∈ buildAliasMap flags, flags.any (fun p => p.1 = q.2) = true := by
  intro q hq
  refine buildAliasMap_values_aux flags flags [] (by simp) ?_ q hq
  intro p hp
  exact List.any_eq_true.mpr ⟨p, hp, by simp⟩

/-- `hasFlag` answers `""` only for tokens that do not start with `--`. -/
theorem hasFlag_empty (arg : String) (cc : CommandType)
    (h : hasFlag arg cc = .ok "") : strStartsWith arg "--" = false := by
  by_cases hdd : strStartsWith arg "--" = true
  · exfalso
    unfold hasFlag checkFlagNotEempty at h
    rw [if_pos hdd] at h
    by_cases hemp : arg.drop 2 = ""
    · simp [hemp] at h
    · simp [hemp] at h
      by_cases hcont : (cc.flags.map (fun p => p.1)).contains (arg.drop 2) = true
      · rw [if_pos hcont] at h
        have hd : arg.drop 2 = "" := by injection h
        exact hemp hd
      · rw [if_neg hcont] at h
        exact Except.noConfusion h
  · simpa using hdd

/-- With every declared flag name non-empty, `hasAliasFlag` answers `""` only
for tokens that do not start with `-`. -/
theorem hasAliasFlag_empty (arg : String) (cc : CommandType) (command : String)
    (hflags : ∀ p ∈ cc.flags, p.1 ≠ "")
    (h : hasAliasFlag arg cc command = .ok "") : strStartsWith arg "-" = false := by
  by_cases hdash : strStartsWith arg "-" = true
  · exfalso
    unfold hasAliasFlag checkFlagNotEempty at h
    rw [if_pos hdash] at h
    by_cases hemp : arg.drop 1 = ""
    · simp [hemp] at h
    · rcases hget : mapGet (buildAliasMap cc.flags) (arg.drop 1) with _ | flagName
      · simp [hemp, hget] at h
      · simp [hemp, hget] at h
        unfold mapGet at hget
        rcases hfind : (buildAliasMap cc.flags).find? (fun p => p.1 = arg.drop 1)
          with _ | q
        · rw [hfind] at hget
          exact Option.noConfusion hget
        · rw [hfind] at hget
          have hq2 : q.2 = flagName := by
            simpa using hget
          have hmem := List.mem_of_find?_eq_some hfind
          have hany := buildAliasMap_values cc.flags q hmem
          rcases List.any_eq_true.mp hany with ⟨p, hp, hpq⟩
          have hpq2 : p.1 = q.2 := by simpa using hpq
          exact hflags p hp (by rw [hpq2, hq2, h])
  · simpa using hdash

/-- With every declared flag name non-empty, a token that `resolveFlag` sends
to the positional branch does not start with `-`. -/
theorem resolveFlag_empty_no_dash (arg : String) (cc : CommandType) (command : String)
    (hflags : ∀ p ∈ cc.flags, p.1 ≠ "")
    (h : resolveFlag arg cc command = .ok "") : strStartsWith arg "-" = false := by
  unfold resolveFlag at h
  rcases hhf : hasFlag arg cc with e | f
  · rw [hhf] at h
    exact Except.noConfusion h
  · simp only [hhf] at h
    by_cases hf0 : f = ""
    · rw [if_pos hf0] at h
      exact hasAliasFlag_empty arg cc command hflags h
    · rw [if_neg hf0] at h
      have hf : f = "" := by injection h
      exact absurd hf hf0

/-- A flag accepted by `checkFlag` is declared in the command configuration. -/
theorem checkFlag_ok_declared (i : Nat) (flag : String) (cc : CommandType)
    (cliArgs : List String) (cmd : String) (fc : FlagConfig)
    (h : checkFlag i flag cc cliArgs cmd = .ok fc) :
    cc.flags.any (fun p => p.1 = flag) = true := by
  unfold checkFlag at h
  rcases hfind : cc.flags.find? (fun p => p.1 = flag) with _ | p
  · rw [hfind] at h
    exact Except.noConfusion h
  · have hmem := List.mem_of_find?_eq_some hfind
    have hpred := List.find?_some hfind
    exact List.any_eq_true.mpr ⟨p, hmem, hpred⟩

/-- A key of `setFlagProp m key v` is a key of `m` or the new key. -/
theorem setFlagProp_any_imp (m : List (String × FlagValue)) (key : String)
    (v : FlagValue) (k : String)
    (h : (setFlagProp m key v).any (fun p => p.1 = k) = true) :
    m.any (fun p => p.1 = k) = true ∨ k = key := by
  unfold setFlagProp at h
  by_cases hmem : m.any (fun p => p.1 = key) = true
  · rw [if_pos hmem] at h
    rcases List.any_eq_true.mp h with ⟨q, hq, hqk⟩
    rcases List.mem_map.mp hq with ⟨p, hp, hpq⟩
    by_cases hpk : p.1 = key
    · rw [if_pos hpk] at hpq
      rw [← hpq] at hqk
      right
      have hk : key = k := by simpa using hqk
      exact hk.symm
    · rw [if_neg hpk] at hpq
      left
      exact List.any_eq_true.mpr ⟨p, hp, by rw [hpq]; exact hqk⟩
  · rw [if_neg hmem] at h
    rw [List.any_append] at h
    rcases Bool.or_eq_true_iff.mp h with h2 | h2
    · exact Or.inl h2
    · right
      simp only [List.any_cons, List.any_nil, Bool.or_false] at h2
      have hk : key = k := by simpa using h2
      exact hk.symm

/-- Invariant of the parse loop: with every declared flag name non-empty, the
result keys come from the accumulator or the declared flags, no positional
token outside the accumulator starts with `-`, and the command name is kept. -/
theorem inputLoop_c8_inv
    (cliConf : CliConfType) (commandConf : CommandType) (command : String)
    (baseAction : ActionType) (cliArgs : List String) :
    ∀ (n : Nat) (rest : List String), rest.length ≤ n →
    ∀ (i : Nat) (acc : CommandResult) (r : InputAction) (c : CommandResult),
    inputLoop cliConf commandConf command baseAction cliArgs rest i acc = .ok r →
    r.command = some c →
    (∀ k, c.flags.any (fun p => p.1 = k) = true →
      acc.flags.any (fun p => p.1 = k) = true ∨
        commandConf.flags.any (fun p => p.1 = k) = true) ∧
    ((∀ p ∈ commandConf.flags, p.1 ≠ "") →
      ∀ a ∈ c.args, a ∈ acc.args ∨ strStartsWith a "-" = false) ∧
    c.name = acc.name := by
  intro n
  induction n with
  | zero =>
    intro rest hn i acc r c hrun hcmd
    have : rest = [] := List.length_eq_zero.mp (Nat.le_zero.mp hn)
    subst this
    simp only [inputLoop, Except.ok.injEq] at hrun
    rw [← hrun] at hcmd
    simp only [Option.some.injEq] at hcmd
    rw [← hcmd]
    exact ⟨fun k hk => Or.inl hk, fun _ a ha => Or.inl ha, rfl⟩
  | succ n ih =>
    intro rest hn i acc r c hrun hcmd
    rcases rest with _ | ⟨arg, rest⟩
    · simp only [inputLoop, Except.ok.injEq] at hrun
      rw [← hrun] at hcmd
      simp only [Option.some.injEq] at hcmd
      rw [← hcmd]
      exact ⟨fun k hk => Or.inl hk, fun _ a ha => Or.inl ha, rfl⟩
    · simp only [List.length_cons, Nat.succ_le_succ_iff] at hn
      simp only [inputLoop] at hrun
      by_cases hver : arg = "--version" ∨ arg = "-v"
      · rw [if_pos hver] at hrun
        simp only [Except.ok.injEq] at hrun
        rw [← hrun] at hcmd
        simp only [Option.some.injEq] at hcmd
        rw [← hcmd]
        exact ⟨fun k hk => Or.inl hk, fun _ a ha => Or.inl ha, rfl⟩
      · rw [if_neg hver] at hrun
        rcases hres : resolveFlag arg commandConf command with e | flag
        · rw [hres] at hrun
          exact Except.noConfusion hrun
        · simp only [hres] at hrun
          by_cases hf0 : flag = ""
          · rw [if_neg (by simpa using hf0)] at hrun
            have hstep := ih rest hn (i + 1)
              { acc with args := acc.args ++ [arg] } r c hrun hcmd
            refine ⟨hstep.1, ?_, hstep.2.2⟩
            intro hflags a ha
            rcases hstep.2.1 hflags a ha with hmem | hnd
            · rcases List.mem_append.mp hmem with hmem2 | hmem2
              · exact Or.inl hmem2
              · right
                have haeq : a = arg := by simpa using hmem2
                rw [haeq]
                rw [hf0] at hres
                exact resolveFlag_empty_no_dash arg commandConf command hflags hres
            · exact Or.inr hnd
          · rw [if_pos hf0] at hrun
            rcases hcf : checkFlag i flag commandConf cliArgs command with e | fc
            · rw [hcf] at hrun
              exact Except.noConfusion hrun
            · simp only [hcf] at hrun
              have hdecl := checkFlag_ok_declared i flag commandConf cliArgs command fc hcf
              by_cases hpv : (parseFlag fc cliArgs i).2 = i
              · rw [if_pos hpv] at hrun
                have hstep := ih rest hn (i + 1)
                  { acc with flags := setFlagProp acc.flags flag (parseFlag fc cliArgs i).1 }
                  r c hrun hcmd
                refine ⟨?_, hstep.2.1, hstep.2.2⟩
                intro k hk
                rcases hstep.1 k hk with hset | hcc
                · rcases setFlagProp_any_imp acc.flags flag _ k hset with h2 | h2
                  · exact Or.inl h2
                  · right
                    rw [h2]
                    exact hdecl
                · exact Or.inr hcc
              · rw [if_neg hpv] at hrun
                rcases rest with _ | ⟨b, rest2⟩
                · simp only [Except.ok.injEq] at hrun
                  rw [← hrun] at hcmd
                  simp only [Option.some.injEq] at hcmd
                  rw [← hcmd]
                  refine ⟨?_, fun _ a ha => Or.inl ha, rfl⟩
                  intro k hk
                  rcases setFlagProp_any_imp acc.flags flag _ k hk with h2 | h2
                  · exact Or.inl h2
                  · right
                    rw [h2]
                    exact hdecl
                · have hstep := ih rest2 (by simp at hn; omega) ((parseFlag fc cliArgs i).2 + 1)
                    { acc with flags := setFlagProp acc.flags flag (parseFlag fc cliArgs i).1 }
                    r c hrun hcmd
                  refine ⟨?_, hstep.2.1, hstep.2.2⟩
                  intro k hk
                  rcases hstep.1 k hk with hset | hcc
                  · rcases setFlagProp_any_imp acc.flags flag _ k hset with h2 | h2
                    · exact Or.inl h2
                    · right
                      rw [h2]
                      exact hdecl
                  · exact Or.inr hcc

/-- Unfolding of `inputParser` for results that carry a command payload: the
pre-scans passed, the (possibly help-reduced) list was non-empty, its head was
resolved as the command, and the loop produced the result. -/
theorem inputParser_ok_resolve
    (inputArgs : List String) (cliConf : CliConfType) (r : InputAction)
    (hok : inputParser inputArgs cliConf = .ok r) (hsome : r.command.isSome = true) :
    ∃ (isHelpe : Bool) (args2 : List String) (cc0 : CommandType),
      isArgsIncludeHelpFlag inputArgs = .ok isHelpe ∧
      args2 = (if isHelpe then removeHelpFlag inputArgs else inputArgs) ∧
      args2.length ≠ 0 ∧
      checkCommand (args2.headD "") cliConf = .ok cc0 ∧
      inputLoop cliConf cc0 (args2.headD "")
        (if isHelpe then ActionType.help else ActionType.command)
        (args2.drop 1) (args2.drop 1) 0
        { name := args2.headD "", args := [], flags := [] } = .ok r := by
  unfold inputParser at hok
  rcases hv : isVersion inputArgs with e | b
  · rw [hv] at hok
    exact Except.noConfusion hok
  · rcases b with _ | _
    · simp only [hv] at hok
      rcases hh : isArgsIncludeHelpFlag inputArgs with e | isHelpe
      · rw [hh] at hok
        exact Except.noConfusion hok
      · simp only [hh] at hok
        by_cases hlen : (if isHelpe = true then removeHelpFlag inputArgs else inputArgs).length = 0
        · rw [if_pos hlen] at hok
          simp only [Except.ok.injEq] at hok
          rw [← hok] at hsome
          exact Bool.noConfusion hsome
        · rw [if_neg hlen] at hok
          rcases hchk : checkCommand
              ((if isHelpe = true then removeHelpFlag inputArgs else inputArgs).headD "")
              cliConf with e | cc0
          · rw [hchk] at hok
            exact Except.noConfusion hok
          · simp only [hchk] at hok
            exact ⟨isHelpe, _, cc0, rfl, rfl, hlen, hchk, hok⟩
    · simp only [hv] at hok
      simp only [Except.ok.injEq] at hok
      rw [← hok] at hsome
      exact Bool.noConfusion hsome

/-- Claim C8 (amended): for a resolved command result, provided every declared
flag name of that command is non-empty, every key of the result flags mapping
is a declared flag name (never an alias), and no positional argument starts
with `-`. -/
theorem inputParser_result_shape_amended
    (cliConf : CliConfType) (inputArgs : List String) (r : InputAction)
    (c : CommandResult) (cc : CommandType)
    (hok : inputParser inputArgs cliConf = .ok r)
    (hcmd : r.command = some c)
    (hcc : checkCommand c.name cliConf = .ok cc)
    (hflags : ∀ p ∈ cc.flags, p.1 ≠ "") :
    (∀ k, c.flags.any (fun p => p.1 = k) = true →
      cc.flags.any (fun p => p.1 = k) = true) ∧
    (∀ a ∈ c.args, strStartsWith a "-" = false) := by
  obtain ⟨isHelpe, args2, cc0, _, _, _, hchk, hloop⟩ :=
    inputParser_ok_resolve inputArgs cliConf r hok (by rw [hcmd]; rfl)
  have hinv := inputLoop_c8_inv cliConf cc0 (args2.headD "")
    (if isHelpe = true then ActionType.help else ActionType.command)
    (args2.drop 1) (args2.drop 1).length (args2.drop 1) le_rfl 0
    { name := args2.headD "", args := [], flags := [] } r c hloop hcmd
  have hname : c.name = args2.headD "" := hinv.2.2
  rw [hname, hchk] at hcc
  have hcceq : cc0 = cc := by injection hcc
  subst hcceq
  constructor
  · intro k hk
    rcases hinv.1 k hk with h | h
    · simp at h
    · exact h
  · intro a ha
    rcases hinv.2.1 hflags a ha with h | h
    · simp at h
    · exact h

/-- Claim C8 (counterexample): under `emptyNameConf`, the token `-x` resolves
through the alias map to the empty flag name, which the loop treats as "not a
flag", so `-x` is pushed onto the positional arguments even though it starts
with `-` — refuting the claim as stated. -/
theorem inputParser_dash_positional_counterexample :
    inputParser ["c", "-x"] emptyNameConf =
      .ok { success := true, action := ActionType.command, output := "",
            command := some { name := "c", args := ["-x"], flags := [] } } ∧
    strStartsWith "-x" "-" = true :=
  ⟨rfl, rfl⟩

/-- Witness for the amended C8 at a concrete input. -/
theorem inputParser_result_shape_amended_witness :
    initCmd.flags.any (fun p => p.1 = "force") = true ∧
    strStartsWith "pos" "-" = false :=
  ⟨(inputParser_result_shape_amended sampleConf ["init", "-f", "pos"]
      { success := true, action := ActionType.command, output := "",
        command := some
          { name := "init", args := ["pos"],
            flags := [("force", FlagValue.bool true)] } }
      { name := "init", args := ["pos"], flags := [("force", FlagValue.bool true)] }
      initCmd rfl rfl rfl (by decide)).1 "force" (by decide),
   (inputParser_result_shape_amended sampleConf ["init", "-f", "pos"]
      { success := true, action := ActionType.command, output := "",
        command := some
          { name := "init", args := ["pos"],
            flags := [("force", FlagValue.bool true)] } }
      { name := "init", args := ["pos"], flags := [("force", FlagValue.bool true)] }
      initCmd rfl rfl rfl (by decide)).2 "pos" (by simp)⟩

/-- Keys of `setFlagProp m key v` are the keys of `m` plus the new key. -/
theorem setFlagProp_any_iff (m : List (String × FlagValue)) (key : String)
    (v : FlagValue) (k : String) :
    ((setFlagProp m key v).any (fun p => p.1 = k) = true) ↔
      (m.any (fun p => p.1 = k) = true ∨ k = key) := by
  constructor
  · exact setFlagProp_any_imp m key v k
  · intro h
    unfold setFlagProp
    by_cases hmem : m.any (fun p => p.1 = key) = true
    · rw [if_pos hmem]
      rcases h with h | h
      · rcases List.any_eq_true.mp h with ⟨p, hp, hpk⟩
        have hpk2 : p.1 = k := by simpa using hpk
        by_cases hpkey : p.1 = key
        · refine List.any_eq_true.mpr ⟨(key, v), List.mem_map.mpr ⟨p, hp, by rw [if_pos hpkey]⟩, ?_⟩
          simp [← hpkey, hpk2]
        · exact List.any_eq_true.mpr ⟨p, List.mem_map.mpr ⟨p, hp, by rw [if_neg hpkey]⟩, hpk⟩
      · rcases List.any_eq_true.mp hmem with ⟨p, hp, hpk⟩
        have hpkey : p.1 = key := by simpa using hpk
        refine List.any_eq_true.mpr ⟨(key, v), List.mem_map.mpr ⟨p, hp, by rw [if_pos hpkey]⟩, ?_⟩
        simp [h]
    · rw [if_neg hmem]
      rw [List.any_append]
      rcases h with h | h
      · rw [h]
        simp
      · refine Bool.or_eq_true_iff.mpr (Or.inr ?_)
        simp [h]

/-- A flag accepted by `checkFlag` comes from a successful lookup. -/
theorem checkFlag_ok_find (i : Nat) (flag : String) (cc : CommandType)
    (cliArgs : List String) (cmd : String) (fc : FlagConfig)
    (h : checkFlag i flag cc cliArgs cmd = .ok fc) :
    ∃ p, cc.flags.find? (fun q => q.1 = flag) = some p ∧ p.2 = fc := by
  unfold checkFlag at h
  rcases hfind : cc.flags.find? (fun q => q.1 = flag) with _ | p
  · rw [hfind] at h
    exact Except.noConfusion h
  · refine ⟨p, hfind, ?_⟩
    simp only [hfind] at h
    by_cases hcond : (p.2.type = FlagType.str ∨ p.2.type = FlagType.num)
        ∧ cliArgs.length = i + 1
    · rw [if_pos hcond] at h
      exact Except.noConfusion h
    · rw [if_neg hcond] at h
      simpa using h

/-- Invariant of the parse loop: the keys of the final flags mapping are the
keys of the accumulator together with the flags supplied by the remaining
tokens. -/
theorem inputLoop_c9_inv
    (cliConf : CliConfType) (commandConf : CommandType) (command : String)
    (baseAction : ActionType) (cliArgs : List String) :
    ∀ (n : Nat) (rest : List String), rest.length ≤ n →
    ∀ (i : Nat) (acc : CommandResult) (r : InputAction) (c : CommandResult),
    inputLoop cliConf commandConf command baseAction cliArgs rest i acc = .ok r →
    r.command = some c →
    ∀ k, (c.flags.any (fun p => p.1 = k) = true ↔
      (acc.flags.any (fun p => p.1 = k) = true ∨
        k ∈ suppliedFlags commandConf command rest)) := by
  intro n
  induction n with
  | zero =>
    intro rest hn i acc r c hrun hcmd k
    have : rest = [] := List.length_eq_zero.mp (Nat.le_zero.mp hn)
    subst this
    simp only [inputLoop, Except.ok.injEq] at hrun
    rw [← hrun] at hcmd
    simp only [Option.some.injEq] at hcmd
    rw [← hcmd]
    simp [suppliedFlags]
  | succ n ih =>
    intro rest hn i acc r c hrun hcmd k
    rcases rest with _ | ⟨arg, rest⟩
    · simp only [inputLoop, Except.ok.injEq] at hrun
      rw [← hrun] at hcmd
      simp only [Option.some.injEq] at hcmd
      rw [← hcmd]
      simp [suppliedFlags]
    · simp only [List.length_cons, Nat.succ_le_succ_iff] at hn
      simp only [inputLoop] at hrun
      by_cases hver : arg = "--version" ∨ arg = "-v"
      · rw [if_pos hver] at hrun
        simp only [Except.ok.injEq] at hrun
        rw [← hrun] at hcmd
        simp only [Option.some.injEq] at hcmd
        rw [← hcmd]
        simp [suppliedFlags, hver]
      · rw [if_neg hver] at hrun
        rcases hres : resolveFlag arg commandConf command with e | flag
        · rw [hres] at hrun
          exact Except.noConfusion hrun
        · simp only [hres] at hrun
          unfold suppliedFlags
          rw [if_neg hver]
          simp only [hres]
          by_cases hf0 : flag = ""
          · rw [if_neg (by simpa using hf0)] at hrun
            rw [if_neg (by simpa using hf0)]
            exact ih rest hn (i + 1) { acc with args := acc.args ++ [arg] } r c hrun hcmd k
          · rw [if_pos hf0] at hrun
            rw [if_pos hf0]
            rcases hcf : checkFlag i flag commandConf cliArgs command with e | fc
            · rw [hcf] at hrun
              exact Except.noConfusion hrun
            · simp only [hcf] at hrun
              obtain ⟨p, hfind, hp2⟩ := checkFlag_ok_find i flag commandConf cliArgs command fc hcf
              simp only [hfind]
              rcases htype : fc.type with _ | _ | _
              · have hpf := parseFlag_str fc cliArgs i htype
                rw [if_neg (by simp [hp2, htype])]
                rw [hpf] at hrun
                rw [if_neg (by omega)] at hrun
                rcases rest with _ | ⟨b, rest2⟩
                · simp only [Except.ok.injEq] at hrun
                  rw [← hrun] at hcmd
                  simp only [Option.some.injEq] at hcmd
                  rw [← hcmd]
                  simp only [setFlagProp_any_iff, List.mem_singleton]
                · have hstep := ih rest2 (by simp at hn; omega) (i + 1 + 1)
                    { acc with flags := setFlagProp acc.flags flag (FlagValue.str (cliArgs.get? (i + 1))) }
                    r c hrun hcmd k
                  rw [hstep]
                  simp only [setFlagProp_any_iff, List.mem_cons]
                  tauto
              · have hpf := parseFlag_num fc cliArgs i htype
                rw [if_neg (by simp [hp2, htype])]
                rw [hpf] at hrun
                rw [if_neg (by omega)] at hrun
                rcases rest with _ | ⟨b, rest2⟩
                · simp only [Except.ok.injEq] at hrun
                  rw [← hrun] at hcmd
                  simp only [Option.some.injEq] at hcmd
                  rw [← hcmd]
                  simp only [setFlagProp_any_iff, List.mem_singleton]
                · have hstep := ih rest2 (by simp at hn; omega) (i + 1 + 1)
                    { acc with flags := setFlagProp acc.flags flag (FlagValue.num (cliArgs.get? (i + 1))) }
                    r c hrun hcmd k
                  rw [hstep]
                  simp only [setFlagProp_any_iff, List.mem_cons]
                  tauto
              · have hpf := parseFlag_bool fc cliArgs i htype
                rw [if_pos (by rw [hp2, htype])]
                rw [hpf] at hrun
                rw [if_pos rfl] at hrun
                have hstep := ih rest hn (i + 1)
                  { acc with flags := setFlagProp acc.flags flag (FlagValue.bool true) }
                  r c hrun hcmd k
                rw [hstep]
                simp only [setFlagProp_any_iff, List.mem_cons]
                tauto

/-- Every supplied flag name comes from a token of the list that resolves to
it. -/
theorem suppliedFlags_resolve (cc : CommandType) (cmd : String) :
    ∀ (n : Nat) (l : List String), l.length ≤ n →
    ∀ k, k ∈ suppliedFlags cc cmd l → ∃ tok ∈ l, resolveFlag tok cc cmd = .ok k := by
  intro n
  induction n with
  | zero =>
    intro l hn k hk
    have : l = [] := List.length_eq_zero.mp (Nat.le_zero.mp hn)
    subst this
    simp [suppliedFlags] at hk
  | succ n ih =>
    intro l hn k hk
    rcases l with _ | ⟨arg, rest⟩
    · simp [suppliedFlags] at hk
    · simp only [List.length_cons, Nat.succ_le_succ_iff] at hn
      unfold suppliedFlags at hk
      by_cases hver : arg = "--version" ∨ arg = "-v"
      · rw [if_pos hver] at hk
        exact absurd hk (List.not_mem_nil k)
      · rw [if_neg hver] at hk
        rcases hres : resolveFlag arg cc cmd with e | flag
        · rw [hres] at hk
          exact absurd hk (List.not_mem_nil k)
        · simp only [hres] at hk
          by_cases hf0 : flag = ""
          · rw [if_neg (by simpa using hf0)] at hk
            obtain ⟨tok, htok, hres2⟩ := ih rest hn k hk
            exact ⟨tok, List.mem_cons_of_mem arg htok, hres2⟩
          · rw [if_pos hf0] at hk
            rcases hfind : cc.flags.find? (fun p => p.1 = flag) with _ | p
            · rw [hfind] at hk
              exact absurd hk (List.not_mem_nil k)
            · simp only [hfind] at hk
              by_cases hbool : p.2.type = FlagType.bool
              · rw [if_pos hbool] at hk
                rcases List.mem_cons.mp hk with hkf | hk2
                · exact ⟨arg, List.mem_cons_self arg rest, by rw [hres, hkf]⟩
                · obtain ⟨tok, htok, hres2⟩ := ih rest hn k hk2
                  exact ⟨tok, List.mem_cons_of_mem arg htok, hres2⟩
              · rw [if_neg hbool] at hk
                rcases rest with _ | ⟨b, rest2⟩
                · have hkf : k = flag := by simpa using hk
                  exact ⟨arg, List.mem_cons_self arg [], by rw [hres, hkf]⟩
                · rcases List.mem_cons.mp hk with hkf | hk2
                  · exact ⟨arg, List.mem_cons_self arg (b :: rest2), by rw [hres, hkf]⟩
                  · obtain ⟨tok, htok, hres2⟩ := ih rest2 (by simp at hn; omega) k hk2
                    exact ⟨tok, List.mem_cons_of_mem arg
                      (List.mem_cons_of_mem b htok), hres2⟩

/-- `removeHelpFlag` only drops tokens: every remaining token was present. -/
theorem removeHelpGo_subset :
    ∀ (n : Nat) (l : List String), l.length ≤ n →
    ∀ (b : Bool) (a : String), a ∈ removeHelpGo l b → a ∈ l := by
  intro n
  induction n with
  | zero =>
    intro l hn b a ha
    have : l = [] := List.length_eq_zero.mp (Nat.le_zero.mp hn)
    subst this
    simp [removeHelpGo] at ha
  | succ n ih =>
    intro l hn b a ha
    rcases l with _ | ⟨arg, rest⟩
    · simp [removeHelpGo] at ha
    · simp only [List.length_cons, Nat.succ_le_succ_iff] at hn
      unfold removeHelpGo at ha
      by_cases hcond : (arg = "--help" ∨ arg = "-h") ∧ ¬ b = true
      · rw [if_pos hcond] at ha
        rcases rest with _ | ⟨x, rest2⟩
        · exact absurd ha (List.not_mem_nil a)
        · have := ih rest2 (by simp at hn; omega) true a ha
          exact List.mem_cons_of_mem arg (List.mem_cons_of_mem x this)
      · rw [if_neg hcond] at ha
        rcases List.mem_cons.mp ha with h | h
        · rw [h]
          exact List.mem_cons_self arg rest
        · exact List.mem_cons_of_mem arg (ih rest hn b a h)

/-- Claim C9: for a resolved command, the keys of the result flags mapping are
exactly the flags supplied by the (help-reduced) tokens after the command name
— a declared flag that was not supplied is absent, never bound to its default —
and every key traces back to a token of the original argument list that
resolves to it. -/
theorem inputParser_flags_exactly_supplied
    (cliConf : CliConfType) (inputArgs : List String) (r : InputAction)
    (c : CommandResult) (cc : CommandType) (isHelpe : Bool)
    (hok : inputParser inputArgs cliConf = .ok r)
    (hcmd : r.command = some c)
    (hcc : checkCommand c.name cliConf = .ok cc)
    (hh : isArgsIncludeHelpFlag inputArgs = .ok isHelpe) :
    (∀ k, c.flags.any (fun p => p.1 = k) = true ↔
      k ∈ suppliedFlags cc c.name
        ((if isHelpe then removeHelpFlag inputArgs else inputArgs).drop 1)) ∧
    (∀ k, c.flags.any (fun p => p.1 = k) = true →
      ∃ tok ∈ inputArgs, resolveFlag tok cc c.name = .ok k) := by
  obtain ⟨isHelpe2, args2, cc0, hh2, hargs2, _, hchk, hloop⟩ :=
    inputParser_ok_resolve inputArgs cliConf r hok (by rw [hcmd]; rfl)
  have hhe : isHelpe2 = isHelpe := by
    rw [hh] at hh2
    injection hh2 with h2
    exact h2.symm
  rw [hhe] at hargs2 hloop
  have hname : c.name = args2.headD "" :=
    (inputLoop_c8_inv cliConf cc0 (args2.headD "")
      (if isHelpe = true then ActionType.help else ActionType.command)
      (args2.drop 1) (args2.drop 1).length (args2.drop 1) le_rfl 0
      { name := args2.headD "", args := [], flags := [] } r c hloop hcmd).2.2
  rw [hname, hchk] at hcc
  have hcceq : cc0 = cc := by injection hcc
  subst hcceq
  have hiff := inputLoop_c9_inv cliConf cc0 (args2.headD "")
    (if isHelpe = true then ActionType.help else ActionType.command)
    (args2.drop 1) (args2.drop 1).length (args2.drop 1) le_rfl 0
    { name := args2.headD "", args := [], flags := [] } r c hloop hcmd
  have hiff2 : ∀ k, c.flags.any (fun p => p.1 = k) = true ↔
      k ∈ suppliedFlags cc0 (args2.headD "") (args2.drop 1) := by
    intro k
    rw [hiff k]
    simp
  constructor
  · intro k
    rw [hname, ← hargs2]
    exact hiff2 k
  · intro k hk
    obtain ⟨tok, htok, hres⟩ := suppliedFlags_resolve cc0 (args2.headD "")
      (args2.drop 1).length (args2.drop 1) le_rfl k ((hiff2 k).mp hk)
    refine ⟨tok, ?_, by rw [hname]; exact hres⟩
    have htok2 : tok ∈ args2 := List.drop_subset 1 args2 htok
    rw [hargs2] at htok2
    by_cases hhel : isHelpe = true
    · rw [if_pos hhel] at htok2
      exact removeHelpGo_subset inputArgs.length inputArgs le_rfl false tok htok2
    · rw [if_neg hhel] at htok2
      exact htok2

/-- Witness for C9 at a concrete input. -/
theorem inputParser_flags_exactly_supplied_witness :
    ("force" ∈ suppliedFlags initCmd "init" ["-f", "pos"]) ∧
    (∃ tok ∈ ["init", "-f", "pos"], resolveFlag tok initCmd "init" = .ok "force") :=
  ⟨((inputParser_flags_exactly_supplied sampleConf ["init", "-f", "pos"]
      { success := true, action := ActionType.command, output := "",
        command := some
          { name := "init", args := ["pos"],
            flags := [("force", FlagValue.bool true)] } }
      { name := "init", args := ["pos"], flags := [("force", FlagValue.bool true)] }
      initCmd false rfl rfl rfl rfl).1 "force").mp (by decide),
   (inputParser_flags_exactly_supplied sampleConf ["init", "-f", "pos"]
      { success := true, action := ActionType.command, output := "",
        command := some
          { name := "init", args := ["pos"],
            flags := [("force", FlagValue.bool true)] } }
      { name := "init", args := ["pos"], flags := [("force", FlagValue.bool true)] }
      initCmd false rfl rfl rfl rfl).2 "force" (by decide)⟩

/-! ## Claim C1: exit codes -/

/-- Results produced by the parse loop always have `success: true` and carry a
command payload. -/
theorem inputLoop_success
    (cliConf : CliConfType) (commandConf : CommandType) (command : String)
    (baseAction : ActionType) (cliArgs : List String) :
    ∀ (n : Nat) (rest : List String), rest.length ≤ n →
    ∀ (i : Nat) (acc : CommandResult) (r : InputAction),
    inputLoop cliConf commandConf command baseAction cliArgs rest i acc = .ok r →
    r.success = true ∧ r.command.isSome = true := by
  intro n
  induction n with
  | zero =>
    intro rest hn i acc r hrun
    have : rest = [] := List.length_eq_zero.mp (Nat.le_zero.mp hn)
    subst this
    simp only [inputLoop, Except.ok.injEq] at hrun
    rw [← hrun]
    exact ⟨rfl, rfl⟩
  | succ n ih =>
    intro rest hn i acc r hrun
    rcases rest with _ | ⟨arg, rest⟩
    · simp only [inputLoop, Except.ok.injEq] at hrun
      rw [← hrun]
      exact ⟨rfl, rfl⟩
    · simp only [List.length_cons, Nat.succ_le_succ_iff] at hn
      simp only [inputLoop] at hrun
      by_cases hver : arg = "--version" ∨ arg = "-v"
      · rw [if_pos hver] at hrun
        simp only [Except.ok.injEq] at hrun
        rw [← hrun]
        exact ⟨rfl, rfl⟩
      · rw [if_neg hver] at hrun
        rcases hres : resolveFlag arg commandConf command with e | flag
        · rw [hres] at hrun
          exact Except.noConfusion hrun
        · simp only [hres] at hrun
          by_cases hf0 : flag = ""
          · rw [if_neg (by simpa using hf0)] at hrun
            exact ih rest hn (i + 1) _ r hrun
          · rw [if_pos hf0] at hrun
            rcases hcf : checkFlag i flag commandConf cliArgs command with e | fc
            · rw [hcf] at hrun
              exact Except.noConfusion hrun
            · simp only [hcf] at hrun
              by_cases hpv : (parseFlag fc cliArgs i).2 = i
              · rw [if_pos hpv] at hrun
                exact ih rest hn (i + 1) _ r hrun
              · rw [if_neg hpv] at hrun
                rcases rest with _ | ⟨b, rest2⟩
                · simp only [Except.ok.injEq] at hrun
                  rw [← hrun]
                  exact ⟨rfl, rfl⟩
                · exact ih rest2 (by simp at hn; omega) _ _ r hrun

/-- A successful `inputParser` result has `success: false` exactly for the
global-help outcome (help action with no command payload). -/
theorem inputParser_success_iff (inputArgs : List String) (cliConf : CliConfType)
    (r : InputAction) (h : inputParser inputArgs cliConf = .ok r) :
    r.success = true ↔ ¬ (r.action = ActionType.help ∧ r.command = none) := by
  unfold inputParser at h
  rcases hv : isVersion inputArgs with e | b
  · rw [hv] at h
    exact Except.noConfusion h
  · rcases b with _ | _
    · simp only [hv] at h
      rcases hh : isArgsIncludeHelpFlag inputArgs with e | isHelpe
      · rw [hh] at h
        exact Except.noConfusion h
      · simp only [hh] at h
        by_cases hlen : (if isHelpe = true then removeHelpFlag inputArgs else inputArgs).length = 0
        · rw [if_pos hlen] at h
          simp only [Except.ok.injEq] at h
          rw [← h]
          simp
        · rw [if_neg hlen] at h
          rcases hchk : checkCommand
              ((if isHelpe = true then removeHelpFlag inputArgs else inputArgs).headD "")
              cliConf with e | cc0
          · rw [hchk] at h
            exact Except.noConfusion h
          · simp only [hchk] at h
            obtain ⟨hsucc, hsome⟩ := inputLoop_success cliConf cc0 _ _ _
              _ _ le_rfl 0 _ r h
            rw [hsucc]
            simp only [true_iff]
            rintro ⟨_, hnone⟩
            rw [hnone] at hsome
            exact Bool.noConfusion hsome
    · simp only [hv] at h
      simp only [Except.ok.injEq] at h
      rw [← h]
      simp

/-- `pipeline` results come from `inputParser`, with the per-command help
re-rendering touching only the output text. -/
theorem pipeline_ok_inner (json5parse : String → Option JVal) (cliArgs : List String)
    (r : InputAction) (h : pipeline json5parse cliArgs = .ok r) :
    ∃ (r0 : InputAction) (cliConf : CliConfType),
      inputParser (removeConfFlag cliArgs) cliConf = .ok r0 ∧
      r.success = r0.success ∧ r.action = r0.action ∧ r.command = r0.command := by
  unfold pipeline at h
  rcases hc : checkConfFlag cliArgs with e | u
  · rw [hc] at h
    exact Except.noConfusion h
  · rcases u
    simp only [hc] at h
    rcases hp : cliConfParser json5parse cliArgs with e | cliConf
    · rw [hp] at h
      exact Except.noConfusion h
    · simp only [hp] at h
      rcases hi : inputParser (removeConfFlag cliArgs) cliConf with e | r0
      · rw [hi] at h
        exact Except.noConfusion h
      · simp only [hi] at h
        refine ⟨r0, cliConf, hi, ?_⟩
        simp only [Except.ok.injEq] at h
        rw [← h]
        by_cases hcond : r0.action = ActionType.help ∧ r0.command.isSome = true
        · rw [if_pos hcond]
          exact ⟨rfl, rfl, rfl⟩
        · rw [if_neg hcond]
          exact ⟨rfl, rfl, rfl⟩

/-- Claim C1 (amended): the process exit status is 0 exactly on successful
outcomes other than global help — version outcomes, resolved commands, and
per-command help; it is 1 on every `ExitError`/crash and on the global-help
outcome (empty reduced argument list), whose payload carries `success: false`. -/
theorem driverExit_characterisation (json5parse : String → Option JVal)
    (cliArgs : List String) :
    driverExit json5parse cliArgs =
      (match pipeline json5parse cliArgs with
       | .error _ => 1
       | .ok r => if r.action = ActionType.help ∧ r.command = none then 1 else 0) := by
  unfold driverExit
  rcases hp : pipeline json5parse cliArgs with e | r
  · rfl
  · obtain ⟨r0, cliConf, hi, hs, ha, hc⟩ := pipeline_ok_inner json5parse cliArgs r hp
    have hiff := inputParser_success_iff _ _ _ hi
    rw [← hs, ← ha, ← hc] at hiff
    show (if r.success = true then 0 else 1) =
      if r.action = ActionType.help ∧ r.command = none then 1 else 0
    by_cases hcond : r.action = ActionType.help ∧ r.command = none
    · rw [if_pos hcond]
      have : ¬ r.success = true := fun hsucc => (hiff.mp hsucc) hcond
      rw [Bool.not_eq_true] at this
      rw [this]
      rfl
    · rw [if_neg hcond]
      rw [hiff.mpr hcond]
      rfl

/-- Claim C1 (counterexample): with a valid configuration and an argument list
consisting only of the config flag and its value, the reduced list is empty,
the run ends in the global-help outcome — and the process exits with status 1,
not 0: the payload is built with `success: false` and the driver calls
`std.exit(1)` on it. -/
theorem driverExit_global_help_exits_one :
    pipeline sampleParse ["--config", "conf"] = .ok globalHelpResult ∧
    driverExit sampleParse ["--config", "conf"] = 1 :=
  ⟨rfl, rfl⟩

/-- `checksToExcept` over an append runs the two parts in sequence. -/
theorem checksToExcept_append (l1 l2 : List (Bool × String)) :
    checksToExcept (l1 ++ l2) = seqV (checksToExcept l1) (checksToExcept l2) := by
  induction l1 with
  | nil => rfl
  | cons c l1 ih =>
    rcases c with ⟨c, m⟩
    by_cases hc : c = true
    · simp only [List.cons_append, checksToExcept, hc, if_true]
      simpa using ih
    · simp only [List.cons_append, checksToExcept]
      rw [if_neg hc, if_neg hc]
      rfl

/-- `checksToExcept` answers the first failing diagnostic. -/
theorem checksToExcept_eq_head (l : List (Bool × String)) :
    checksToExcept l = headToExcept (failuresOf l) := by
  induction l with
  | nil => rfl
  | cons c l ih =>
    rcases c with ⟨c, m⟩
    by_cases hc : c = true
    · simp only [checksToExcept, hc, if_true, failuresOf, List.filterMap_cons, ih]
    · simp only [checksToExcept, failuresOf, List.filterMap_cons]
      rw [if_neg hc]
      simp only [hc]
      rfl

/-- A Boolean check in front of a specified remainder. -/
theorem check_cons (c : Bool) (m : String) (x : Except VErr Unit)
    (cs : List (Bool × String))
    (hx : x ≠ .error .crash → x = checksToExcept cs) :
    (if c then x else .error (.diag m)) ≠ .error .crash →
    (if c then x else .error (.diag m)) = checksToExcept ((c, m) :: cs) := by
  intro h
  by_cases hc : c = true
  · rw [if_pos hc] at h ⊢
    rw [hx h]
    simp [checksToExcept, hc]
  · rw [if_neg hc] at h ⊢
    simp [checksToExcept, hc]

/-- A propositional check in front of a specified remainder. -/
theorem check_cons_prop (p : Prop) [Decidable p] (m : String) (x : Except VErr Unit)
    (cs : List (Bool × String))
    (hx : x ≠ .error .crash → x = checksToExcept cs) :
    (if p then x else .error (.diag m)) ≠ .error .crash →
    (if p then x else .error (.diag m)) = checksToExcept ((decide p, m) :: cs) := by
  intro h
  by_cases hp : p
  · rw [if_pos hp] at h ⊢
    rw [hx h]
    simp [checksToExcept, hp]
  · rw [if_neg hp] at h ⊢
    simp [checksToExcept, hp]

/-- Sequencing preserves check-list specifications. -/
theorem seqV_spec (x y : Except VErr Unit) (l1 l2 : List (Bool × String))
    (hx : x ≠ .error .crash → x = checksToExcept l1)
    (hy : y ≠ .error .crash → y = checksToExcept l2) :
    seqV x y ≠ .error .crash → seqV x y = checksToExcept (l1 ++ l2) := by
  intro h
  rw [checksToExcept_append]
  rcases hxv : x with e | u
  · rcases e with msg | _
    · have : seqV (Except.error (VErr.diag msg)) y = .error (.diag msg) := rfl
      rw [this]
      rw [hxv] at hx
      rw [← hx (by intro habs; exact VErr.noConfusion (by injection habs))]
      rfl
    · rw [hxv] at h
      exact absurd rfl h
  · rcases u
    rw [hxv] at hx
    have hl1 : checksToExcept l1 = .ok () := (hx (by intro habs; exact Except.noConfusion habs)).symm
    rw [hl1]
    have hyy : seqV (Except.ok ()) y = y := rfl
    rw [hyy]
    rw [hxv] at h
    rw [hyy] at h
    exact hy h

/-- The inline match shape used by the source loops is `seqV`. -/
theorem match_eq_seqV (x y : Except VErr Unit) :
    (match x with | Except.error e => Except.error e | Except.ok () => y) =
      seqV x y := rfl

/-- Per-flag checks: the source sequence equals the ordered check list. -/
theorem validateFlagConf_spec (cname fname : String) (fc : Option JVal) :
    validateFlagConf cname fname fc ≠ .error .crash →
    validateFlagConf cname fname fc = checksToExcept (flagChecks cname fname fc) := by
  rcases fc with _ | w
  · intro h
    exact absurd rfl h
  · rcases w with _ | b | n | sstr | xs | fields
    · intro h
      exact absurd rfl h
    all_goals
      simp only [validateFlagConf, hasOwnE, flagChecks, hasOwnT]
    all_goals
      exact check_cons _ _ _ _ (check_cons _ _ _ _ (check_cons _ _ _ _ (check_cons _ _ _ _
        (check_cons _ _ _ _ (check_cons_prop _ _ _ _ (check_cons _ _ _ _
        (check_cons_prop _ _ _ _ (fun _ => rfl))))))))

/-- Per-positional-slot checks: the source sequence equals the check list. -/
theorem validateArg_spec (cname : String) (a : JVal) :
    validateArg cname a ≠ .error .crash →
    validateArg cname a = checksToExcept (argChecks cname a) := by
  rcases a with _ | b | n | sstr | xs | fields
  · intro h
    exact absurd rfl h
  all_goals
    simp only [validateArg, hasOwnE, argChecks, hasOwnT]
  all_goals
    exact check_cons _ _ _ _ (check_cons_prop _ _ _ _ (fun _ => rfl))

/-- The args loop equals the concatenation of the per-slot check lists. -/
theorem validateArgs_spec (cname : String) :
    ∀ l : List JVal, validateArgs cname l ≠ .error .crash →
    validateArgs cname l = checksToExcept (l.flatMap (argChecks cname)) := by
  intro l
  induction l with
  | nil =>
    intro _
    rfl
  | cons a l ih =>
    show seqV (validateArg cname a) (validateArgs cname l) ≠ Except.error VErr.crash →
      seqV (validateArg cname a) (validateArgs cname l) =
        checksToExcept (argChecks cname a ++ l.flatMap (argChecks cname))
    exact seqV_spec (validateArg cname a) (validateArgs cname l)
      (argChecks cname a) (l.flatMap (argChecks cname)) (validateArg_spec cname a) ih

/-- The flags loop equals the concatenation of the per-flag check lists. -/
theorem validateFlags_spec (cname : String) (fo : Option JVal) :
    ∀ keys : List String, validateFlags cname fo keys ≠ .error .crash →
    validateFlags cname fo keys =
      checksToExcept (keys.flatMap (fun fn => flagChecks cname fn (getPropOpt fo fn))) := by
  intro keys
  induction keys with
  | nil =>
    intro _
    rfl
  | cons fn keys ih =>
    show seqV (validateFlagConf cname fn (getPropOpt fo fn)) (validateFlags cname fo keys) ≠
        Except.error VErr.crash →
      seqV (validateFlagConf cname fn (getPropOpt fo fn)) (validateFlags cname fo keys) =
        checksToExcept (flagChecks cname fn (getPropOpt fo fn)
          ++ keys.flatMap (fun fn => flagChecks cname fn (getPropOpt fo fn)))
    exact seqV_spec (validateFlagConf cname fn (getPropOpt fo fn))
      (validateFlags cname fo keys) (flagChecks cname fn (getPropOpt fo fn))
      (keys.flatMap (fun fn => flagChecks cname fn (getPropOpt fo fn)))
      (validateFlagConf_spec cname fn _) ih

/-- The flags section (keys enumeration plus loop) equals its check list. -/
theorem validateFlagsSection_spec (cname : String) (fo : Option JVal) :
    validateFlagsSection cname fo ≠ .error .crash →
    validateFlagsSection cname fo =
      checksToExcept ((keysT fo).flatMap (fun fn => flagChecks cname fn (getPropOpt fo fn))) := by
  rcases fo with _ | w
  · intro h
    exact absurd rfl h
  · rcases w with _ | b | n | sstr | xs | fields
    · intro h
      exact absurd rfl h
    all_goals
      simp only [validateFlagsSection, objKeysE, keysT]
    all_goals
      exact validateFlags_spec cname _ _

/-- Per-command checks: the source sequence equals the ordered check list. -/
theorem validateCommand_spec (cname : String) (cv : Option JVal) :
    validateCommand cname cv ≠ .error .crash →
    validateCommand cname cv = checksToExcept (commandChecks cname cv) := by
  rcases cv with _ | w
  · intro h
    exact absurd rfl h
  · rcases w with _ | b | n | sstr | xs | fields
    · intro h
      exact absurd rfl h
    all_goals
      simp only [validateCommand, objKeysE, hasOwnE, commandChecks, keysT, hasOwnT,
        List.append_assoc, List.cons_append, List.nil_append]
    all_goals
      rw [match_eq_seqV]
    all_goals
      exact check_cons _ _ _ _ (check_cons_prop _ _ _ _ (check_cons _ _ _ _
        (check_cons _ _ _ _ (seqV_spec _ _ _ _ (validateArgs_spec _ _)
          (check_cons _ _ _ _ (check_cons_prop _ _ _ _
            (validateFlagsSection_spec _ _)))))))

/-- The commands loop equals the concatenation of per-command check lists. -/
theorem validateCommands_spec (co : Option JVal) :
    ∀ keys : List String, validateCommands co keys ≠ .error .crash →
    validateCommands co keys =
      checksToExcept (keys.flatMap (fun cn => commandChecks cn (getPropOpt co cn))) := by
  intro keys
  induction keys with
  | nil =>
    intro _
    rfl
  | cons cn keys ih =>
    show seqV (validateCommand cn (getPropOpt co cn)) (validateCommands co keys) ≠
        Except.error VErr.crash →
      seqV (validateCommand cn (getPropOpt co cn)) (validateCommands co keys) =
        checksToExcept (commandChecks cn (getPropOpt co cn)
          ++ keys.flatMap (fun cn => commandChecks cn (getPropOpt co cn)))
    exact seqV_spec (validateCommand cn (getPropOpt co cn)) (validateCommands co keys)
      (commandChecks cn (getPropOpt co cn))
      (keys.flatMap (fun cn => commandChecks cn (getPropOpt co cn)))
      (validateCommand_spec cn _) ih

/-- The commands section (keys enumeration plus loop) equals its check list. -/
theorem validateCommandsSection_spec (co : Option JVal) :
    validateCommandsSection co ≠ .error .crash →
    validateCommandsSection co =
      checksToExcept ((keysT co).flatMap (fun cn => commandChecks cn (getPropOpt co cn))) := by
  rcases co with _ | w
  · intro h
    exact absurd rfl h
  · rcases w with _ | b | n | sstr | xs | fields
    · intro h
      exact absurd rfl h
    all_goals
      simp only [validateCommandsSection, objKeysE, keysT]
    all_goals
      exact validateCommands_spec _ _

/-- The whole validator equals the ordered check list of the traversal. -/
theorem cliConfValidate_spec (v : JVal) :
    cliConfValidate v ≠ .error .crash →
    cliConfValidate v = checksToExcept (topChecks v
      ++ (keysT (getProp v "commands")).flatMap
          (fun cn => commandChecks cn (getPropOpt (getProp v "commands") cn))) := by
  rcases v with _ | b | n | sstr | xs | fields
  · intro h
    exact absurd rfl h
  all_goals
    simp only [cliConfValidate, hasOwnE, topChecks, hasOwnT,
      List.append_assoc, List.cons_append, List.nil_append]
  all_goals
    exact check_cons _ _ _ _ (check_cons_prop _ _ _ _ (check_cons _ _ _ _
      (check_cons_prop _ _ _ _ (check_cons _ _ _ _ (check_cons_prop _ _ _ _
        (check_cons _ _ _ _ (check_cons_prop _ _ _ _
          (validateCommandsSection_spec _))))))))

/-- Claim C7 (counterexample): validation does not always abort with a
diagnostic naming the exact missing or mistyped field path. Under
`flagNoTypeJ` the violated field is `commands.c.flags.force.type`, yet the
diagnostic names only the command: `flagNoTypeJ2`, which differs precisely in
which flag lacks `type` (`other` instead of `force`), produces the identical
message, so the message cannot name the exact field. And under `nullCmdJ`
(`commands.x` is `null`) validation aborts through an uncaught JS `TypeError`
with no diagnostic at all. -/
theorem cliConfValidate_path_counterexample :
    cliConfValidate flagNoTypeJ =
      .error (.diag "The command flag must have a type property in commands.c") ∧
    cliConfValidate flagNoTypeJ2 = cliConfValidate flagNoTypeJ ∧
    cliConfValidate nullCmdJ = .error .crash :=
  ⟨rfl, rfl, rfl⟩

/-- Claim C7 (amended): on the `TypeError`-free domain — in particular
whenever config validation reports a structured diagnostic — the reported
diagnostic is exactly the first violated check in the fixed traversal order
name → version → description → commands → per-command description → args →
flags → per-flag type/default/description/alias; with no violation,
validation succeeds. The per-flag `type`-presence and per-arg diagnostics
name only `commands.<cmd>`, as the check lists record. -/
theorem cliConfValidate_first_violation (v : JVal)
    (h : cliConfValidate v ≠ .error .crash) :
    cliConfValidate v = headToExcept (specViolations v) := by
  rw [cliConfValidate_spec v h]
  unfold specViolations
  exact checksToExcept_eq_head _

/-- Witness for C7 at a concrete input with several violations: the mistyped
`name` is reported, being the earliest violated check in traversal order. -/
theorem cliConfValidate_first_violation_witness :
    cliConfValidate badConfJ = headToExcept (specViolations badConfJ) ∧
    cliConfValidate badConfJ = .error (.diag "The name property must be a string") :=
  ⟨cliConfValidate_first_violation badConfJ (by
      intro habs
      rw [show cliConfValidate badConfJ =
        Except.error (VErr.diag "The name property must be a string") from rfl] at habs
      injection habs with h2
      exact VErr.noConfusion h2),
   rfl⟩
